import Mathlib

/-!
Verification of the artifact extraction and patch application engine of the
`poor_ai` repository (`src/core/response_processor.py`, `src/core/file_handler.py`).

The Python source is shallowly embedded: strings are `List Char` (`Str`),
Python `list` indexing (including negative indices) is `pyIdx`, fallible code
returns `Except`/`Option`, and the in-memory `FileHandler` state is an explicit
structure threaded through the operations.  Loops whose bound is data dependent
are written with an explicit fuel argument instantiated with an exact iteration
bound at the call site, so every definition is executable.
-/

namespace PoorAI

/-- Internal representation of a Python `str`: a list of characters. -/
abbrev Str := List Char

/-- The space character. -/
def chSpace : Char := Char.ofNat 32

/-- The newline character `\n`. -/
def chNL : Char := Char.ofNat 10

/-- The carriage-return character `\r`. -/
def chCR : Char := Char.ofNat 13

/-- The backtick character. -/
def chTick : Char := Char.ofNat 96

/-- Whitespace for Python's `str.strip()` (the `str.isspace` set). -/
def isPySpace (c : Char) : Bool :=
  c.toNat ∈ [9, 10, 11, 12, 13, 28, 29, 30, 31, 32, 133, 160, 5760,
    8192, 8193, 8194, 8195, 8196, 8197, 8198, 8199, 8200, 8201, 8202,
    8232, 8233, 8239, 8287, 12288]

/-- Line-break characters recognised by Python's `str.splitlines`
(besides the combined `\r\n` sequence, handled separately). -/
def isLineBreakChar (c : Char) : Bool :=
  c.toNat ∈ [10, 11, 12, 13, 28, 29, 30, 133, 8232, 8233]

/-- Worker for `pySplitlines`; `cur` is the current line accumulated in reverse. -/
def slGo : Str → Str → List Str
  | [], cur => if cur = [] then [] else [cur.reverse]
  | [c], cur =>
    if isLineBreakChar c then [cur.reverse] else [(c :: cur).reverse]
  | c1 :: c2 :: rest, cur =>
    if c1 = chCR ∧ c2 = chNL then cur.reverse :: slGo rest []
    else if isLineBreakChar c1 then cur.reverse :: slGo (c2 :: rest) []
    else slGo (c2 :: rest) (c1 :: cur)

/-- Python `str.splitlines()`: split on line-break characters, treating `\r\n`
as a single break, with no trailing empty line for a trailing break. -/
def pySplitlines (s : Str) : List Str := slGo s []

/-- Python `'\n'.join(lines)`. -/
def pyJoinNL (lines : List Str) : Str := List.intercalate [chNL] lines

/-- Python `str.lstrip()` with no argument. -/
def pyLstrip (s : Str) : Str := s.dropWhile isPySpace

/-- Python `str.rstrip()` with no argument. -/
def pyRstrip (s : Str) : Str := (s.reverse.dropWhile isPySpace).reverse

/-- Python `str.strip()` with no argument. -/
def pyStrip (s : Str) : Str := pyRstrip (pyLstrip s)

/-- Python `str.rstrip('\n')`. -/
def pyRstripNL (s : Str) : Str := (s.reverse.dropWhile (· = chNL)).reverse

/-- Python `s.startswith(p)` for a single pattern. -/
def startsWith (s p : Str) : Bool := p.isPrefixOf s

/-- Python `s.split(sep)` for a single-character separator. -/
def splitChar (sep : Char) : Str → List Str
  | [] => [[]]
  | c :: rest =>
    if c = sep then [] :: splitChar sep rest
    else match splitChar sep rest with
      | [] => [[c]]
      | hd :: tl => (c :: hd) :: tl

/-- Index of the first occurrence of `pat` as a contiguous substring of `s`. -/
def findSubIdx (pat : Str) : Str → Option Nat
  | [] => if pat = [] then some 0 else none
  | c :: rest =>
    if pat.isPrefixOf (c :: rest) then some 0
    else (findSubIdx pat rest).map (· + 1)

/-- Python `pat in s` (substring containment). -/
def hasSub (pat s : Str) : Bool := (findSubIdx pat s).isSome

/-- Numeric value of a string of decimal digit characters. -/
def natOfDigits (ds : Str) : Nat :=
  ds.foldl (fun n c => n * 10 + (c.toNat - 48)) 0

/-- Consume a maximal nonempty run of decimal digits (regex `\d+`, greedy). -/
def parseDigits (s : Str) : Option (Nat × Str) :=
  let run := s.takeWhile (fun c => c.isDigit)
  if run = [] then none else some (natOfDigits run, s.drop run.length)

/-- Strip an expected literal prefix, failing if absent. -/
def expectPre (pat s : Str) : Option Str :=
  if pat.isPrefixOf s then some (s.drop pat.length) else none

/-- Python `re.match(r'@@ -(\d+),(\d+) \+(\d+),(\d+) @@', line)`:
anchored prefix match returning the four captured numbers. -/
def parseHunkHeader (line : Str) : Option (Nat × Nat × Nat × Nat) := do
  let r0 ← expectPre "@@ -".data line
  let (n1, r1) ← parseDigits r0
  let r2 ← expectPre ",".data r1
  let (n2, r3) ← parseDigits r2
  let r4 ← expectPre " +".data r3
  let (n3, r5) ← parseDigits r4
  let r6 ← expectPre ",".data r5
  let (n4, r7) ← parseDigits r6
  let _ ← expectPre " @@".data r7
  pure (n1, n2, n3, n4)

/-- A parsed hunk of a unified diff (`file_handler.py` lines 194-217). -/
structure Hunk where
  originalStart : Nat
  originalCount : Nat
  newStart : Nat
  newCount : Nat
  lines : List Str
deriving DecidableEq, Repr

/-- Worker for `parseHunks`; fuel bounds the scan over `diff_lines`. -/
def parseHunksGo : Nat → List Str → List Hunk
  | 0, _ => []
  | _ + 1, [] => []
  | fuel + 1, line :: rest =>
    if startsWith line "@@".data then
      match parseHunkHeader line with
      | some (a, b, c, d) =>
        let body := rest.takeWhile (fun l => ¬ startsWith l "@@".data)
        let rest' := rest.dropWhile (fun l => ¬ startsWith l "@@".data)
        { originalStart := a, originalCount := b, newStart := c, newCount := d,
          lines := body } :: parseHunksGo fuel rest'
      | none => parseHunksGo fuel rest
    else parseHunksGo fuel rest

/-- The diff-parsing loop of `apply_result` (`file_handler.py` lines 194-221):
scan the diff's lines, and at each line matching the hunk-header regex collect
the following lines up to the next `@@` line as that hunk's body. -/
def parseHunks (diffLines : List Str) : List Hunk :=
  parseHunksGo diffLines.length diffLines

/-- Python list indexing `l[i]`: nonnegative indices from the front, negative
indices from the back, `none` models an `IndexError`. -/
def pyIdx (l : List α) (i : Int) : Option α :=
  if 0 ≤ i then l.get? i.toNat
  else
    let j : Int := (l.length : Int) + i
    if 0 ≤ j then l.get? j.toNat else none

/-- Failure modes of the patch applier: the two `ValueError`s raised at
`file_handler.py` lines 241 and 246 (carrying the cited line number) and an
`IndexError` from a Python list access. -/
inductive DiffErr where
  | contextMismatch (line : Int)
  | removedMismatch (line : Int)
  | indexError
deriving DecidableEq, Repr

/-- The copy-through loop before each hunk (`file_handler.py` lines 228-233):
`while pos < original_start: if pos < len(original_lines): append; pos += 1
else: break`.  Fuel is the exact iteration bound `(tgt - pos).toNat`. -/
def copyUpTo : Nat → List Str → Int → Int → List Str →
    Except DiffErr (List Str × Int)
  | 0, _, pos, _, acc => .ok (acc, pos)
  | fuel + 1, lines, pos, tgt, acc =>
    if pos < tgt then
      if pos < (lines.length : Int) then
        match pyIdx lines pos with
        | some v => copyUpTo fuel lines (pos + 1) tgt (acc ++ [v])
        | none => .error .indexError
      else .ok (acc, pos)
    else .ok (acc, pos)

/-- The walk over one hunk's lines (`file_handler.py` lines 235-248): a context
line must equal the original line at the cursor (emit and advance), a removal
line must equal it (advance only), an addition line is emitted verbatim, and
any other line is ignored.  The bound check `hunk_pos < len(original_lines)`
precedes the list access; a failed check or failed comparison raises the
corresponding mismatch carrying the cursor plus one. -/
def hunkWalk (lines : List Str) : List Str → Int → List Str →
    Except DiffErr (List Str × Int)
  | [], pos, acc => .ok (acc, pos)
  | hl :: rest, pos, acc =>
    if startsWith hl [chSpace] then
      if pos < (lines.length : Int) then
        match pyIdx lines pos with
        | some v =>
          if hl.drop 1 = v then hunkWalk lines rest (pos + 1) (acc ++ [v])
          else .error (.contextMismatch (pos + 1))
        | none => .error .indexError
      else .error (.contextMismatch (pos + 1))
    else if startsWith hl "-".data then
      if pos < (lines.length : Int) then
        match pyIdx lines pos with
        | some v =>
          if hl.drop 1 = v then hunkWalk lines rest (pos + 1) acc
          else .error (.removedMismatch (pos + 1))
        | none => .error .indexError
      else .error (.removedMismatch (pos + 1))
    else if startsWith hl "+".data then
      hunkWalk lines rest pos (acc ++ [hl.drop 1])
    else hunkWalk lines rest pos acc

/-- Apply the parsed hunks in order (`file_handler.py` lines 224-249): before
each hunk copy original lines through up to `original_start - 1`, reset the
cursor to `original_start - 1`, walk the hunk's lines, and carry the final
cursor to the next hunk. -/
def applyHunksGo (lines : List Str) : List Hunk → Int → List Str →
    Except DiffErr (List Str × Int)
  | [], pos, acc => .ok (acc, pos)
  | h :: rest, pos, acc =>
    let os : Int := (h.originalStart : Int) - 1
    match copyUpTo (os - pos).toNat lines pos os acc with
    | .error e => .error e
    | .ok (acc1, _) =>
      match hunkWalk lines h.lines os acc1 with
      | .error e => .error e
      | .ok (acc2, pos2) => applyHunksGo lines rest pos2 acc2

/-- The trailing copy loop (`file_handler.py` lines 250-252):
`while pos < len(original_lines): append original_lines[pos]; pos += 1`.
Fuel is the exact iteration bound. -/
def trailingCopy : Nat → List Str → Int → List Str → Except DiffErr (List Str)
  | 0, _, _, acc => .ok acc
  | fuel + 1, lines, pos, acc =>
    if pos < (lines.length : Int) then
      match pyIdx lines pos with
      | some v => trailingCopy fuel lines (pos + 1) (acc ++ [v])
      | none => .error .indexError
    else .ok acc

/-- The diff branch of `FileHandler.apply_result` (`file_handler.py` lines
191-253) as a pure function: parse the diff, apply the hunks to the original
split into lines, copy the remaining lines, and join with newlines. -/
def applyDiffL (original diffText : Str) : Except DiffErr Str :=
  let originalLines := pySplitlines original
  let hunks := parseHunks (pySplitlines diffText)
  match applyHunksGo originalLines hunks 0 [] with
  | .error e => .error e
  | .ok (acc, pos) =>
    match trailingCopy (((originalLines.length : Int) - pos).toNat)
        originalLines pos acc with
    | .error e => .error e
    | .ok out => .ok (pyJoinNL out)

/-- String-level wrapper of `applyDiffL`. -/
def applyDiffPy (original diffText : String) : Except DiffErr String :=
  match applyDiffL original.data diffText.data with
  | .error e => .error e
  | .ok out => .ok (String.mk out)

/-- Python `s.replace(pat, rep)` for a nonempty `pat`: leftmost,
non-overlapping replacement.  Fuel is `s.length`. -/
def replaceSub : Nat → Str → Str → Str → Str
  | 0, _, _, s => s
  | fuel + 1, pat, rep, s =>
    match s with
    | [] => []
    | c :: rest =>
      if pat.isPrefixOf s then rep ++ replaceSub fuel pat rep (s.drop pat.length)
      else c :: replaceSub fuel pat rep rest

/-- The `escape_backticks` of `file_handler.py` (lines 10-12): replace a triple
backtick with backslash-escaped backticks. -/
def escapeBackticksFH (content : String) : String :=
  String.mk (replaceSub content.data.length "```".data "\\`\\`\\`".data content.data)

/-- Python `re.match(r'^\s*#.*$', line)` on a line without newlines:
after leading whitespace the line starts with `#`. -/
def isPyComment (line : Str) : Bool := startsWith (pyLstrip line) "#".data

/-- Python `re.match` for the block-comment shapes `^\s*OP.*CL\s*$` (with `OP`/`CL`
the comment delimiters): after leading whitespace the line starts with `OP`,
and what follows, with trailing whitespace removed, ends with `CL`. -/
def isBlockComment (op cl line : Str) : Bool :=
  let r := pyLstrip line
  startsWith r op && cl.isSuffixOf (pyRstrip (r.drop op.length))

/-- The comment-line predicate selected by `comment_patterns`
(`file_handler.py` lines 259-264) for a given language. -/
def isCommentLine (language : String) (line : Str) : Bool :=
  if language = "python" then isPyComment line
  else if language = "javascript" then
    startsWith (pyLstrip line) "//".data || isBlockComment "/*".data "*/".data line
  else if language = "html" then isBlockComment "<!--".data "-->".data line
  else if language = "css" then isBlockComment "/*".data "*/".data line
  else false

/-- One extracted file-content record.  Mirrors the dict produced by
`extract_code` and consumed by `apply_result`; `short`/`detailed` are `none`
when the key is absent. -/
structure Artifact where
  filename : String
  content : String
  language : String
  short : Option String := none
  detailed : Option String := none
  artifact_id : String := ""
  is_diff : Bool := false
deriving DecidableEq, Repr

/-- The mutable state of a `FileHandler`: the ordered list of buffered paths
and the two path-keyed content maps.  The maps are association lists whose
iteration order is never observed by the modelled operations (only
`current_files` is iterated), so `aset` may simply prepend. -/
structure FileHandlerSt where
  current_files : List String
  contents : List (String × String)
  original_contents : List (String × String)
deriving DecidableEq, Repr

/-- Lookup in a path-keyed map (first binding wins). -/
def alookup (k : String) : List (String × String) → Option String
  | [] => none
  | (k', v) :: rest => if k' = k then some v else alookup k rest

/-- Lookup with a default, Python's `dict.get(k, d)`. -/
def alookupD (k : String) (m : List (String × String)) (d : String) : String :=
  (alookup k m).getD d

/-- Map update `m[k] = v` (prepends; `alookup` sees the newest binding). -/
def aset (k v : String) (m : List (String × String)) : List (String × String) :=
  (k, v) :: m

/-- The on-disk file system, mapping resolved paths to file text. -/
abbrev FileSys := List (String × String)

/-- Python `str(self.project_dir / filename)`; path normalisation (absolute
components, `..`) is not modelled. -/
def resolvePath (pd filename : String) : String := pd ++ "/" ++ filename

/-- Append a path to `current_files` if absent (`file_handler.py` lines
278-280 and 119-120). -/
def addCurrent (path : String) (st : FileHandlerSt) : FileHandlerSt :=
  if path ∈ st.current_files then st
  else { st with current_files := st.current_files ++ [path] }

/-- The lazy load of a diff target (`file_handler.py` lines 184-190): a path
not yet buffered is seeded from disk, or as the empty string for a new file.
Note `original_contents` is not touched.  Returns the state and the
`original_content` the diff will be applied to. -/
def lazyLoad (fs : FileSys) (file_path : String) (st : FileHandlerSt) :
    FileHandlerSt × String :=
  match alookup file_path st.contents with
  | some c => (st, c)
  | none =>
    match alookup file_path fs with
    | some c => ({ st with contents := aset file_path c st.contents }, c)
    | none => ({ st with contents := aset file_path "" st.contents }, "")

/-- The diff branch of one `apply_result` iteration (`file_handler.py` lines
183-253): lazily load the target, apply the diff, and commit the joined
result to `contents` only on success.  On failure the raise happens before
the commit, so only the lazy load has mutated the state. -/
def applyDiffBranch (fs : FileSys) (file_path : String) (st : FileHandlerSt)
    (diffText : String) : FileHandlerSt × Option DiffErr :=
  let lz := lazyLoad fs file_path st
  match applyDiffPy lz.2 diffText with
  | .error e => (lz.1, some e)
  | .ok newText =>
    (addCurrent file_path
      { lz.1 with contents := aset file_path newText lz.1.contents }, none)

/-- The whole-content branch of one `apply_result` iteration
(`file_handler.py` lines 254-281): escape backticks and prepend the target's
existing comment lines (for the four supported languages) that do not occur
in the new content. -/
def applyFullBranch (file_path : String) (st : FileHandlerSt)
    (item : Artifact) : FileHandlerSt :=
  let existing_comments : List Str :=
    match alookup file_path st.contents with
    | some old =>
      if item.language ∈ ["python", "javascript", "html", "css"] then
        (pySplitlines old.data).filter (isCommentLine item.language)
      else []
    | none => []
  let base := escapeBackticksFH item.content
  let new_content :=
    if existing_comments ≠ [] then
      let comment_block :=
        pyJoinNL (existing_comments.filter
          (fun c => !(pySplitlines base.data).contains c))
      if comment_block ≠ [] then
        String.mk comment_block ++ "\n" ++ base
      else base
    else base
  addCurrent file_path { st with contents := aset file_path new_content st.contents }

/-- One iteration of the `apply_result` loop (`file_handler.py` lines
166-282) on a single item.  Logging, console prints and the `project.json`
bookkeeping of `_update_project` are external I/O and not modelled.  The
second component is `some e` when the iteration raises; the returned state
then contains exactly the mutations performed before the raise. -/
def applyItem (fs : FileSys) (pd : String) (st : FileHandlerSt)
    (item : Artifact) : FileHandlerSt × Option DiffErr :=
  if String.mk (pyStrip item.filename.data) = "" then (st, none)
  else if item.content = "" then (st, none)
  else if item.is_diff then
    applyDiffBranch fs (resolvePath pd (String.mk (pyStrip item.filename.data)))
      st item.content
  else
    (applyFullBranch (resolvePath pd (String.mk (pyStrip item.filename.data)))
      st item, none)

/-- The loop of `apply_result` over all items; the single `try/except` around
the loop means the first raising item ends the call with `False`, keeping the
state mutations made so far. -/
def applyGo (fs : FileSys) (pd : String) :
    FileHandlerSt → List Artifact → FileHandlerSt × Bool
  | st, [] => (st, true)
  | st, item :: rest =>
    match applyItem fs pd st item with
    | (st', none) => applyGo fs pd st' rest
    | (st', some _) => (st', false)

/-- The method `FileHandler.apply_result` (`file_handler.py` lines 159-287): an empty
result list is rejected up front, otherwise the items are applied in order
until the first raising item (if any). -/
def applyResult (fs : FileSys) (pd : String) (st : FileHandlerSt)
    (items : List Artifact) : FileHandlerSt × Bool :=
  if items = [] then (st, false) else applyGo fs pd st items

/-- The loop of `save_file` over `current_files` (`file_handler.py` lines
135-145): write each path whose current content differs from
`original_contents.get(path, '')`, resetting its original content.  Returns
the updated originals, the updated file system and `changed_files`.
Directory creation and `_update_project` are unmodelled I/O. -/
def saveGo : List String → List (String × String) → List (String × String) →
    FileSys → List (String × String) × FileSys × List String
  | [], _, origs, fs => (origs, fs, [])
  | p :: rest, contents, origs, fs =>
    let cur := alookupD p contents ""
    let orig := alookupD p origs ""
    if cur ≠ orig then
      let res := saveGo rest contents (aset p cur origs) (aset p cur fs)
      (res.1, res.2.1, p :: res.2.2)
    else saveGo rest contents origs fs

/-- The method `FileHandler.save_file` (`file_handler.py` lines 128-157): fails only when
no files are loaded; otherwise returns `True` whether or not anything changed.
The last component mirrors `changed_files`. -/
def saveFile (st : FileHandlerSt) (fs : FileSys) :
    FileHandlerSt × FileSys × Bool × List String :=
  if st.current_files = [] then (st, fs, false, [])
  else
    let res := saveGo st.current_files st.contents st.original_contents fs
    ({ st with original_contents := res.1 }, res.2.1, true, res.2.2)

/-- Loading one explicit path (`file_handler.py` lines 109-121): a missing
file is a per-path failure; an existing file seeds both `contents` and
`original_contents` with the file text. -/
def loadOne (fs : FileSys) (pd : String) (st : FileHandlerSt)
    (path : String) : FileHandlerSt × Bool :=
  let file_path := resolvePath pd path
  match alookup file_path fs with
  | none => (st, false)
  | some content =>
    let st1 := { st with
      contents := aset file_path content st.contents,
      original_contents := aset file_path content st.original_contents }
    (addCurrent file_path st1, true)

/-- The method `FileHandler.load_file` restricted to an explicit, wildcard-free path
list (the wildcard branch consults the unmodelled `project.json` manifest;
the comma/whitespace splitting of the argument string is done by the caller
here).  Success requires every path to exist. -/
def loadFiles (fs : FileSys) (pd : String) :
    FileHandlerSt → List String → FileHandlerSt × Bool
  | st, [] => (st, true)
  | st, p :: rest =>
    let r1 := loadOne fs pd st p
    let r2 := loadFiles fs pd r1.1 rest
    (r2.1, r1.2 && r2.2)

/-- The diff of Scenario C in the specification. -/
def scenarioCDiff : String := "@@ -1,3 +1,3 @@\n line1\n-line2\n+line2 modified\n line3"

/-- The diff of Scenario D: its context line claims `" b"` where the original
holds `"X"`. -/
def scenarioDDiff : String := "@@ -1,3 +1,3 @@\n a\n b\n c"

/-- A buffer holding Scenario D's original `"a\nX\nc"` under `p/a.txt`. -/
def stC1 : FileHandlerSt :=
  ⟨["p/a.txt"], [("p/a.txt", "a\nX\nc")], [("p/a.txt", "a\nX\nc")]⟩

/-- A diff artifact that mismatches against `stC1`'s buffer. -/
def badDiffItem : Artifact :=
  { filename := "a.txt", content := scenarioDDiff, language := "diff",
    is_diff := true }

/-- A well-formed whole-content artifact for a sibling file `b.txt`. -/
def goodItemB : Artifact :=
  { filename := "b.txt", content := "hello world", language := "" }

/-- A well-formed whole-content artifact for a sibling file `c.txt`. -/
def goodItemC : Artifact :=
  { filename := "c.txt", content := "more text", language := "" }

/-- The state `stC1` after `goodItemB` has been applied. -/
def stC1b : FileHandlerSt :=
  ⟨["p/a.txt", "p/b.txt"],
   [("p/b.txt", "hello world"), ("p/a.txt", "a\nX\nc")],
   [("p/a.txt", "a\nX\nc")]⟩

/-- The state and Scenario C artifact for claims C3/C4. -/
def stC3 : FileHandlerSt :=
  ⟨["p/f.txt"], [("p/f.txt", "line1\nline2\nline3")],
   [("p/f.txt", "line1\nline2\nline3")]⟩

/-- Scenario C's diff as an extracted artifact targeting `f.txt`. -/
def itemC3 : Artifact :=
  { filename := "f.txt", content := scenarioCDiff, language := "diff",
    is_diff := true }

/-- The buffer state after the first (successful) application of Scenario C. -/
def stC4 : FileHandlerSt := (applyResult [] "p" stC3 [itemC3]).1

/-- The on-disk file for the lazy-load scenario of C9. -/
def fsC9 : FileSys := [("p/f.txt", "a")]

/-- A no-op diff artifact targeting the on-disk `f.txt`. -/
def itemC9 : Artifact :=
  { filename := "f.txt", content := "@@ -1,1 +1,1 @@\n a", language := "diff",
    is_diff := true }

/-- An empty buffer. -/
def stEmpty : FileHandlerSt := ⟨[], [], []⟩

/-- The double-quote character. -/
def chQuote : Char := Char.ofNat 34

/-- The opening curly brace character. -/
def chLB : Char := Char.ofNat 123

/-- The closing curly brace character. -/
def chRB : Char := Char.ofNat 125

/-- The backslash character. -/
def chBS : Char := Char.ofNat 92

/-- JSON inter-token whitespace (the set accepted by Python's `json` module). -/
def isJsonWs (c : Char) : Bool := c.toNat ∈ [32, 9, 10, 13]

/-- Skip JSON whitespace. -/
def skipWs (s : Str) : Str := s.dropWhile isJsonWs

/-- A parsed JSON value.  Numbers are abstracted to their zero-ness, the only
property the extractor ever consumes (Python falsiness); `NaN`/`Infinity`
count as nonzero.  Objects keep their fields in text order; lookups take the
last binding, like Python dict construction. -/
inductive JValue where
  | jNull
  | jBool (b : Bool)
  | jNum (isZero : Bool)
  | jStr (s : Str)
  | jArr (items : List JValue)
  | jObj (fields : List (Str × JValue))

/-- Python truth-value test on a JSON-decoded value (`bool(x)`). -/
def jFalsy : JValue → Bool
  | .jNull => true
  | .jBool b => !b
  | .jNum z => z
  | .jStr s => s.isEmpty
  | .jArr l => l.isEmpty
  | .jObj l => l.isEmpty

/-- Python `dict.get(k)` on decoded-object fields: the last binding wins. -/
def jGet (fields : List (Str × JValue)) (k : Str) : Option JValue :=
  fields.foldl (fun acc p => if p.1 = k then some p.2 else acc) none

/-- Value of a hexadecimal digit. -/
def hexVal (c : Char) : Option Nat :=
  if c.isDigit then some (c.toNat - 48)
  else if 97 ≤ c.toNat ∧ c.toNat ≤ 102 then some (c.toNat - 87)
  else if 65 ≤ c.toNat ∧ c.toNat ≤ 70 then some (c.toNat - 55)
  else none

/-- Four hexadecimal digits. -/
def hex4 : Str → Option (Nat × Str)
  | a :: b :: c :: d :: rest => do
    let va ← hexVal a
    let vb ← hexVal b
    let vc ← hexVal c
    let vd ← hexVal d
    pure (((va * 16 + vb) * 16 + vc) * 16 + vd, rest)
  | _ => none

/-- JSON string body after the opening quote: ordinary characters (control
characters below 0x20 are rejected, as in Python's `json`), the short
escapes, and `\uXXXX` with surrogate-pair combination.  A lone surrogate —
which Python would accept into its `str` — has no `Char` counterpart and is
treated as a parse failure; no input exercised by the claims contains one. -/
def parseJStr : Nat → Str → Option (Str × Str)
  | 0, _ => none
  | _ + 1, [] => none
  | fuel + 1, c :: rest =>
    if c = chQuote then some ([], rest)
    else if c = chBS then
      match rest with
      | [] => none
      | e :: rest2 =>
        let simpleEsc : Option Char :=
          if e = chQuote then some chQuote
          else if e = chBS then some chBS
          else if e = '/' then some '/'
          else if e = 'b' then some (Char.ofNat 8)
          else if e = 'f' then some (Char.ofNat 12)
          else if e = 'n' then some chNL
          else if e = 'r' then some chCR
          else if e = 't' then some (Char.ofNat 9)
          else none
        match simpleEsc with
        | some ch =>
          match parseJStr fuel rest2 with
          | some (tail, r) => some (ch :: tail, r)
          | none => none
        | none =>
          if e = 'u' then
            match hex4 rest2 with
            | none => none
            | some (n1, rest3) =>
              if n1 < 55296 ∨ 57343 < n1 then
                match parseJStr fuel rest3 with
                | some (tail, r) => some (Char.ofNat n1 :: tail, r)
                | none => none
              else if n1 ≤ 56319 then
                match rest3 with
                | b1 :: u1 :: rest4 =>
                  if b1 = chBS ∧ u1 = 'u' then
                    match hex4 rest4 with
                    | some (n2, rest5) =>
                      if 56320 ≤ n2 ∧ n2 ≤ 57343 then
                        match parseJStr fuel rest5 with
                        | some (tail, r) =>
                          some (Char.ofNat
                            (65536 + (n1 - 55296) * 1024 + (n2 - 56320)) ::
                            tail, r)
                        | none => none
                      else none
                    | none => none
                  else none
                | _ => none
              else none
          else none
    else if c.toNat < 32 then none
    else
      match parseJStr fuel rest with
      | some (tail, r) => some (c :: tail, r)
      | none => none

/-- A strict JSON number at the head of the input: `-? (0 | [1-9][0-9]*)
('.' [0-9]+)? ([eE][+-]?[0-9]+)?`.  Returns whether every mantissa digit is
zero (so the Python value compares equal to 0) and the rest. -/
def parseNum (s : Str) : Option (Bool × Str) :=
  let (s1, _neg) := match s with
    | c :: rest => if c = '-' then (rest, true) else (s, false)
    | [] => ([], false)
  match s1 with
  | [] => none
  | c :: _ =>
    if ¬ c.isDigit then none
    else
      let intPart := s1.takeWhile Char.isDigit
      if c = '0' ∧ intPart.length ≠ 1 then none
      else
        let r1 := s1.drop intPart.length
        let fracDigits : Option (Str × Str) :=
          match r1 with
          | d :: r2 =>
            if d = '.' then
              let fd := r2.takeWhile Char.isDigit
              if fd = [] then none else some (fd, r2.drop fd.length)
            else some ([], r1)
          | [] => some ([], r1)
        match fracDigits with
        | none => none
        | some (fd, r3) =>
          let expOk : Option Str :=
            match r3 with
            | e :: r4 =>
              if e = 'e' ∨ e = 'E' then
                let r5 := match r4 with
                  | sgn :: r6 => if sgn = '+' ∨ sgn = '-' then r6 else r4
                  | [] => r4
                let ed := r5.takeWhile Char.isDigit
                if ed = [] then none else some (r5.drop ed.length)
              else some r3
            | [] => some r3
          match expOk with
          | none => none
          | some r7 =>
            some ((intPart ++ fd).all (fun d => d = '0'), r7)

/-- Parsing modes of the JSON scanner: a value, the items of an array after
`[`, or the fields of an object after the opening brace. -/
inductive PMode where
  | val
  | arrItems (acc : List JValue)
  | objItems (acc : List (Str × JValue))

/-- The recursive JSON scanner, fuel-bounded so that it is structural and
evaluates by `rfl`.  Mirrors Python's `json.loads` grammar including the
non-standard `NaN`/`Infinity`/`-Infinity` constants. -/
def parseGo : Nat → PMode → Str → Option (JValue × Str)
  | 0, _, _ => none
  | fuel + 1, .val, s =>
    match s with
    | [] => none
    | c :: rest =>
      if c = chQuote then
        match parseJStr (fuel + 1) rest with
        | some (str, r) => some (.jStr str, r)
        | none => none
      else if c = chLB then
        let r := skipWs rest
        match r with
        | d :: r2 => if d = chRB then some (.jObj [], r2)
                     else parseGo fuel (.objItems []) r
        | [] => none
      else if c = '[' then
        let r := skipWs rest
        match r with
        | d :: r2 => if d = ']' then some (.jArr [], r2)
                     else parseGo fuel (.arrItems []) r
        | [] => none
      else if startsWith s "true".data then some (.jBool true, s.drop 4)
      else if startsWith s "false".data then some (.jBool false, s.drop 5)
      else if startsWith s "null".data then some (.jNull, s.drop 4)
      else if startsWith s "NaN".data then some (.jNum false, s.drop 3)
      else if startsWith s "Infinity".data then some (.jNum false, s.drop 8)
      else if startsWith s "-Infinity".data then some (.jNum false, s.drop 9)
      else
        match parseNum s with
        | some (z, r) => some (.jNum z, r)
        | none => none
  | fuel + 1, .arrItems acc, s =>
    match parseGo fuel .val s with
    | none => none
    | some (v, r) =>
      match skipWs r with
      | c :: r2 =>
        if c = ',' then parseGo fuel (.arrItems (acc ++ [v])) (skipWs r2)
        else if c = ']' then some (.jArr (acc ++ [v]), r2)
        else none
      | [] => none
  | fuel + 1, .objItems acc, s =>
    match s with
    | c :: rest =>
      if c = chQuote then
        match parseJStr (fuel + 1) rest with
        | none => none
        | some (key, r) =>
          match skipWs r with
          | d :: r2 =>
            if d = ':' then
              match parseGo fuel .val (skipWs r2) with
              | none => none
              | some (v, r3) =>
                match skipWs r3 with
                | e :: r4 =>
                  if e = ',' then
                    parseGo fuel (.objItems (acc ++ [(key, v)])) (skipWs r4)
                  else if e = chRB then some (.jObj (acc ++ [(key, v)]), r4)
                  else none
                | [] => none
            else none
          | [] => none
      else none
    | [] => none

/-- Python `json.loads`: skip leading whitespace, parse one value, and require
only whitespace to remain.  `none` models `json.JSONDecodeError`. -/
def jsonLoads (s : Str) : Option JValue :=
  match parseGo (3 * s.length + 8) .val (skipWs s) with
  | some (v, r) => if skipWs r = [] then some v else none
  | none => none

/-- Python `str.lower()` restricted to ASCII letters (the language tags the
extractor lowers are ASCII; full Unicode lowering is not modelled). -/
def pyLowerAscii (s : Str) : Str :=
  s.map (fun c =>
    if 65 ≤ c.toNat ∧ c.toNat ≤ 90 then Char.ofNat (c.toNat + 32) else c)

/-- The `escape_backticks` of `response_processor.py` (lines 8-10): the
replacement string in the source is doubly escaped, so a triple backtick is
replaced by the literal eighteen-character text backslash-u0060 three times,
not by escaped backticks. -/
def escapeBackticksRP (s : Str) : Str :=
  replaceSub s.length "```".data "\\u0060\\u0060\\u0060".data s

/-- Characters after the first occurrence of `pat` (identity if absent). -/
def afterFirstSub (pat s : Str) : Str :=
  match findSubIdx pat s with
  | some i => s.drop (i + pat.length)
  | none => s

/-- Characters before the first occurrence of `pat` (`s.split(pat)[0]`). -/
def upToFirstSub (pat s : Str) : Str :=
  match findSubIdx pat s with
  | some i => s.take i
  | none => s

/-- A string-valued field of a decoded JSON object with default `''`;
`none` models the uncaught `AttributeError` Python raises when `.strip()`
is called on a non-string value. -/
def jGetStr (fields : List (Str × JValue)) (k : Str) : Option Str :=
  match jGet fields k with
  | none => some []
  | some (.jStr s) => some s
  | some _ => none

/-- Collapse a decoded JSON value stored verbatim in an artifact field
(`short`/`detailed`): non-strings are kept by Python but only ever forwarded
to the unmodelled `project.json` bookkeeping, so they collapse to `""`. -/
def jvalText : JValue → String
  | .jStr s => String.mk s
  | _ => ""

/-- The whole-response JSON strategy's item loop (`response_processor.py`
lines 29-48): non-dict items and items with falsy `filename`/`content` are
skipped; a non-string `filename`/`language` or a truthy non-string `content`
crashes (overall `none`); each appended artifact draws the next fresh id. -/
def s1Items (supply : Nat → String) : List JValue → Nat →
    Option (List Artifact × Nat)
  | [], n => some ([], n)
  | .jObj fields :: rest, n =>
    match jGetStr fields "filename".data with
    | none => none
    | some fn0 =>
      match jGetStr fields "language".data with
      | none => none
      | some lang0 =>
        let fn := pyStrip fn0
        let content := (jGet fields "content".data).getD (.jStr [])
        if fn = [] ∨ jFalsy content then s1Items supply rest n
        else
          match content with
          | .jStr cs =>
            match s1Items supply rest (n + 1) with
            | none => none
            | some (arts, n') =>
              some ({ filename := String.mk fn,
                      content := String.mk (escapeBackticksRP cs),
                      language := String.mk (pyStrip lang0),
                      artifact_id := supply n, is_diff := false } :: arts, n')
          | _ => none
  | _ :: rest, n => s1Items supply rest n

/-- The fenced-JSON strategy's item loop (`response_processor.py` lines
60-78): like `s1Items` but the language is lowered and the pass-through
`short`/`detailed` fields are kept. -/
def s2Items (supply : Nat → String) : List JValue → Nat →
    Option (List Artifact × Nat)
  | [], n => some ([], n)
  | .jObj fields :: rest, n =>
    match jGetStr fields "filename".data with
    | none => none
    | some fn0 =>
      match jGetStr fields "language".data with
      | none => none
      | some lang0 =>
        let fn := pyStrip fn0
        let content := (jGet fields "content".data).getD (.jStr [])
        if fn = [] ∨ jFalsy content then s2Items supply rest n
        else
          match content with
          | .jStr cs =>
            match s2Items supply rest (n + 1) with
            | none => none
            | some (arts, n') =>
              some ({ filename := String.mk fn,
                      content := String.mk (escapeBackticksRP cs),
                      language := String.mk (pyLowerAscii (pyStrip lang0)),
                      short := some (jvalText
                        ((jGet fields "short".data).getD (.jStr []))),
                      detailed := some (jvalText
                        ((jGet fields "detailed".data).getD (.jStr []))),
                      artifact_id := supply n, is_diff := false } :: arts, n')
          | _ => none
  | _ :: rest, n => s2Items supply rest n

/-- Try the fenced-JSON pattern (three backticks, an optional greedy `json`
token, a newline, then a lazy body up to the closing `\n` plus fence) at the
head of `s`; returns the body and the matched length. -/
def fjTryAt (s : Str) : Option (Str × Nat) :=
  if startsWith s "```".data then
    let after := s.drop 3
    if startsWith after "json\n".data then
      match findSubIdx "\n```".data (after.drop 5) with
      | some k => some ((after.drop 5).take k, 3 + 5 + k + 4)
      | none => none
    else if startsWith after [chNL] then
      match findSubIdx "\n```".data (after.drop 1) with
      | some k => some ((after.drop 1).take k, 3 + 1 + k + 4)
      | none => none
    else none
  else none

/-- Python `finditer` of the fenced-JSON pattern: leftmost, non-overlapping. -/
def scanFJ : Nat → Str → List Str
  | 0, _ => []
  | _ + 1, [] => []
  | fuel + 1, c :: t =>
    match fjTryAt (c :: t) with
    | some (body, len) => body :: scanFJ fuel ((c :: t).drop len)
    | none => scanFJ fuel t

/-- The fenced-JSON strategy over all matched blocks (`response_processor.py`
lines 54-82): the first block that decodes to a list with at least one valid
item returns those items; `json` failures fall through to the next block. -/
def s2Run (supply : Nat → String) : List Str → Nat →
    Option (Option (List Artifact) × Nat)
  | [], n => some (none, n)
  | block :: rest, n =>
    match jsonLoads (pyStrip block) with
    | some (.jArr items) =>
      match s2Items supply items n with
      | none => none
      | some (arts, n') =>
        if arts ≠ [] then some (some arts, n') else s2Run supply rest n'
    | _ => s2Run supply rest n

/-- One backtracking attempt of the four-backtick pattern's tail at group-1
length `k`: the optional newline is taken only at the full non-newline run
(greedy), and the lazy body ends at the earliest four-backtick fence. -/
def f4TryK (after : Str) (runLen k : Nat) : Option (Nat × Nat × Nat) :=
  let withNL := k = runLen ∧ startsWith (after.drop k) [chNL]
  let bodyOff := if withNL then k + 1 else k
  (findSubIdx "````".data (after.drop bodyOff)).map (fun j => (k, bodyOff, j))

/-- Backtrack group 1 of the four-backtick pattern from the maximal run
length down, as the regex engine does. -/
def f4FromK (after : Str) (runLen : Nat) : Nat → Option (Nat × Nat × Nat)
  | 0 => f4TryK after runLen 0
  | k + 1 =>
    match f4TryK after runLen (k + 1) with
    | some res => some res
    | none => f4FromK after runLen k

/-- Try the four-backtick pattern at the head of `s`. -/
def f4TryAt (s : Str) : Option (Str × Str × Nat) :=
  if startsWith s "````".data then
    let after := s.drop 4
    let runLen := (after.takeWhile (· ≠ chNL)).length
    match f4FromK after runLen runLen with
    | some (k, off, j) =>
      some (after.take k, (after.drop off).take j, 4 + off + j + 4)
    | none => none
  else none

/-- Python `finditer` of the four-backtick pattern, with match start positions. -/
def scanF4 : Nat → Nat → Str → List (Nat × Str × Str)
  | 0, _, _ => []
  | _ + 1, _, [] => []
  | fuel + 1, i, c :: t =>
    match f4TryAt (c :: t) with
    | some (g1, g2, len) => (i, g1, g2) :: scanF4 fuel (i + len) ((c :: t).drop len)
    | none => scanF4 fuel (i + 1) t

/-- Try the triple-backtick pattern (a fence, a greedy non-newline label, a
newline, a lazy body, then `\n` plus fence) at the head of `s`. -/
def f3TryAt (s : Str) : Option (Str × Str × Nat) :=
  if startsWith s "```".data then
    match (s.drop 3).drop ((s.drop 3).takeWhile (· ≠ chNL)).length with
    | _ :: rest2 =>
      (findSubIdx "\n```".data rest2).map
        (fun j => ((s.drop 3).takeWhile (· ≠ chNL), rest2.take j,
          3 + ((s.drop 3).takeWhile (· ≠ chNL)).length + 1 + j + 4))
    | [] => none
  else none

/-- Python `finditer` of the triple-backtick pattern, with match start positions. -/
def scanF3 : Nat → Nat → Str → List (Nat × Str × Str)
  | 0, _, _ => []
  | _ + 1, _, [] => []
  | fuel + 1, i, c :: t =>
    match f3TryAt (c :: t) with
    | some (g1, g2, len) => (i, g1, g2) :: scanF3 fuel (i + len) ((c :: t).drop len)
    | none => scanF3 fuel (i + 1) t

/-- The filename taken from the last line preceding a fence match
(`response_processor.py` lines 119-126): the text before the match, trailing
newlines stripped, split on newlines; its last line stripped, unless it is
empty or starts with a fence/diff marker. -/
def fenceFilename (r : Str) (start : Nat) : Str :=
  let pre := pyRstripNL (r.take start)
  let lines := if pre = [] then [] else splitChar chNL pre
  match lines.getLast? with
  | none => []
  | some last0 =>
    let last := pyStrip last0
    if last ≠ [] ∧ ¬ (startsWith last "```".data ∨ startsWith last "diff".data
        ∨ startsWith last "----".data ∨ startsWith last "````".data)
    then last else []

/-- Recover a filename from the first `--- a/` or `diff --git a/` line of a
`diff`-labelled block (`response_processor.py` lines 134-141). -/
def diffFilenameFromBlock : List Str → Option Str
  | [] => none
  | line :: rest =>
    if startsWith line "--- a/".data then some (pyStrip (line.drop 6))
    else if startsWith line "diff --git a/".data then
      some (pyStrip (upToFirstSub " b/".data
        (upToFirstSub " a/".data (afterFirstSub " a/".data line))))
    else diffFilenameFromBlock rest

/-- Shared post-processing of a fence match (`response_processor.py` lines
117-143 and 155-181): returns `(filename, language, content, is_diff)`. -/
def processFence (r : Str) (start : Nat) (g1 g2 : Str) :
    Str × Str × Str × Bool :=
  if ('.' ∈ pyStrip g1) ∨ ('/' ∈ pyStrip g1) then
    (pyStrip g1, [], escapeBackticksRP (pyStrip g2), false)
  else if pyStrip g1 = "diff".data then
    ((match diffFilenameFromBlock (pySplitlines (pyStrip g2)) with
      | some f => f
      | none => fenceFilename r start), pyStrip g1,
     escapeBackticksRP (pyStrip g2), true)
  else (fenceFilename r start, pyStrip g1, escapeBackticksRP (pyStrip g2), false)

/-- Length of a lazy body stopped by the lookahead `(?:--- a/|$)` under
`re.MULTILINE`: the body ends at the first `--- a/`, at the first newline
(a MULTILINE `$` matches before every newline), or at the end of text. -/
def udLookScan : Str → Nat
  | [] => 0
  | c :: rest =>
    if startsWith (c :: rest) "--- a/".data then 0
    else if c = chNL then 0
    else 1 + udLookScan rest

/-- Try the unified-diff pattern at the head of `s`: `--- a/` and a
non-empty file name to the end of the line, the `+++ b/` line, then the
lazy body (cut short at the first line end by the MULTILINE `$`). -/
def udTryAt (s : Str) : Option (Str × Str × Nat) :=
  if startsWith s "--- a/".data then
    let r1 := s.drop 6
    let file := r1.takeWhile (· ≠ chNL)
    if file = [] then none
    else if r1.length = file.length then none
    else
      let r2 := r1.drop (file.length + 1)
      if startsWith r2 "+++ b/".data then
        let r3 := r2.drop 6
        let seg := r3.takeWhile (· ≠ chNL)
        if seg = [] then none
        else if r3.length = seg.length then none
        else
          let body0 := r3.drop (seg.length + 1)
          let blen := udLookScan body0
          some (file, body0.take blen,
            6 + file.length + 1 + 6 + seg.length + 1 + blen)
      else none
  else none

/-- Python `finditer` of the unified-diff pattern. -/
def scanUD : Nat → Str → List (Str × Str)
  | 0, _ => []
  | _ + 1, [] => []
  | fuel + 1, c :: t =>
    match udTryAt (c :: t) with
    | some (file, body, len) => (file, body) :: scanUD fuel ((c :: t).drop len)
    | none => scanUD fuel t

/-- Length of a lazy body stopped by the lookahead `(?:diff --git|$)` under
`re.MULTILINE`. -/
def gitLookScan : Str → Nat
  | [] => 0
  | c :: rest =>
    if startsWith (c :: rest) "diff --git".data then 0
    else if c = chNL then 0
    else 1 + gitLookScan rest

/-- The tail of the git-diff pattern after the ` b/` separator: the rest of
the header line, the mandatory `--- a/` and `+++ b/` lines, then the lazy
body.  Returns the body and the consumed length. -/
def gdCheckTail (r : Str) : Option (Str × Nat) :=
  let seg := r.takeWhile (· ≠ chNL)
  if seg = [] then none
  else if r.length = seg.length then none
  else
    let r4 := r.drop (seg.length + 1)
    if startsWith r4 "--- a/".data then
      let r5 := r4.drop 6
      let s1 := r5.takeWhile (· ≠ chNL)
      if s1 = [] then none
      else if r5.length = s1.length then none
      else
        let r7 := r5.drop (s1.length + 1)
        if startsWith r7 "+++ b/".data then
          let r8 := r7.drop 6
          let s2 := r8.takeWhile (· ≠ chNL)
          if s2 = [] then none
          else if r8.length = s2.length then none
          else
            let r9 := r8.drop (s2.length + 1)
            let blen := gitLookScan r9
            some (r9.take blen,
              seg.length + 1 + 6 + s1.length + 1 + 6 + s2.length + 1 + blen)
        else none
    else none

/-- The lazy scan for the git-diff file group: extend the (non-newline,
nonempty) file name to the next ` b/` separator whose tail parses, exactly
as the backtracking engine does. -/
def gdScanFile : Nat → Str → Nat → Option (Nat × Str × Nat)
  | 0, _, _ => none
  | fuel + 1, cur, i =>
    if 1 ≤ i ∧ startsWith cur " b/".data then
      match gdCheckTail (cur.drop 3) with
      | some (body, clen) => some (i, body, i + 3 + clen)
      | none =>
        match cur with
        | [] => none
        | c :: t => if c = chNL then none else gdScanFile fuel t (i + 1)
    else
      match cur with
      | [] => none
      | c :: t => if c = chNL then none else gdScanFile fuel t (i + 1)

/-- Try the git-diff pattern at the head of `s`. -/
def gdTryAt (s : Str) : Option (Str × Str × Nat) :=
  if startsWith s "diff --git a/".data then
    let rest := s.drop 13
    match gdScanFile (rest.length + 1) rest 0 with
    | some (i, body, clen) => some (rest.take i, body, 13 + clen)
    | none => none
  else none

/-- Python `finditer` of the git-diff pattern. -/
def scanGD : Nat → Str → List (Str × Str)
  | 0, _ => []
  | _ + 1, [] => []
  | fuel + 1, c :: t =>
    match gdTryAt (c :: t) with
    | some (file, body, len) => (file, body) :: scanGD fuel ((c :: t).drop len)
    | none => scanGD fuel t

/-- Attach fresh ids (`str(uuid.uuid4())`, one draw per appended artifact, in
append order) from the supply, starting at index `n`. -/
def setIds (supply : Nat → String) : List Artifact → Nat → List Artifact × Nat
  | [], n => ([], n)
  | a :: rest, n =>
    let res := setIds supply rest (n + 1)
    ({ a with artifact_id := supply n } :: res.1, res.2)

/-- Artifacts of the four-backtick strategy (`response_processor.py` lines
115-150; every match is appended, no filename/content guard). -/
def f4Artifacts (r : Str) : List Artifact :=
  (scanF4 (r.length + 1) 0 r).map (fun m =>
    let q := processFence r m.1 m.2.1 m.2.2
    { filename := String.mk q.1, content := String.mk q.2.2.1,
      language := String.mk q.2.1, is_diff := q.2.2.2 })

/-- Artifacts of the triple-backtick strategy (`response_processor.py` lines
153-189; appended only when both filename and content are nonempty). -/
def f3Artifacts (r : Str) : List Artifact :=
  (scanF3 (r.length + 1) 0 r).filterMap (fun m =>
    let q := processFence r m.1 m.2.1 m.2.2
    if q.1 ≠ [] ∧ q.2.2.1 ≠ [] then
      some { filename := String.mk q.1, content := String.mk q.2.2.1,
             language := String.mk q.2.1, is_diff := q.2.2.2 }
    else none)

/-- Artifacts of the unified-diff strategy (`response_processor.py` lines
192-202). -/
def udArtifacts (r : Str) : List Artifact :=
  (scanUD (r.length + 1) r).map (fun m =>
    { filename := String.mk (pyStrip m.1),
      content := String.mk (escapeBackticksRP (pyStrip m.2)),
      language := "diff", is_diff := true })

/-- Artifacts of the git-diff strategy (`response_processor.py` lines
205-215). -/
def gdArtifacts (r : Str) : List Artifact :=
  (scanGD (r.length + 1) r).map (fun m =>
    { filename := String.mk (pyStrip m.1),
      content := String.mk (escapeBackticksRP (pyStrip m.2)),
      language := "diff", is_diff := true })

/-- The part of `extract_code` after the whole-response JSON strategy
(`response_processor.py` lines 52-218): the fenced-JSON strategy with its
early return, then the raw-content returns, then the concatenated
four-backtick, triple-backtick, unified-diff and git-diff strategies. -/
def extractTail (supply : Nat → String) (r : Str) (n1 : Nat) :
    Option (List Artifact) :=
  match s2Run supply (scanFJ (r.length + 1) r) n1 with
  | none => none
  | some (some arts2, _) => some arts2
  | some (none, n2) =>
    if ¬ hasSub "```".data r ∧ ¬ startsWith r "diff".data ∧
        ¬ startsWith r "---".data then
      let lines := pySplitlines r
      if lines.length = 1 then
        some [{ filename := "",
                content := String.mk (escapeBackticksRP (pyStrip r)),
                language := "", artifact_id := supply n2,
                is_diff := false }]
      else
        let first := pyStrip (lines.headD [])
        if ¬ (chSpace ∈ first) ∧ (('.' ∈ first) ∨ ('/' ∈ first)) then
          some [{ filename := String.mk first,
                  content := String.mk (escapeBackticksRP
                    (pyRstrip (pyJoinNL (lines.drop 1)))),
                  language := "", artifact_id := supply n2,
                  is_diff := false }]
        else
          some [{ filename := "",
                  content := String.mk (escapeBackticksRP (pyStrip r)),
                  language := "", artifact_id := supply n2,
                  is_diff := false }]
    else
      some ((setIds supply (f4Artifacts r ++ f3Artifacts r ++
        udArtifacts r ++ gdArtifacts r) n2).1)

/-- The function `extract_code` (`response_processor.py` lines 12-218).  The
fresh-id supply models the `uuid.uuid4()` draws (one per appended artifact,
drawn in append order); `none` models an uncaught exception (a non-string
field met by `.strip()`/`.lower()`/`.replace()` in the JSON strategies). -/
def extract (supply : Nat → String) (response : String) :
    Option (List Artifact) :=
  let r := response.data
  if pyStrip r = [] then some []
  else
    match (match jsonLoads (pyStrip r) with
           | some (.jArr items) => s1Items supply items 0
           | _ => some ([], 0)) with
    | none => none
    | some (arts1, n1) =>
      if arts1 ≠ [] then some arts1 else extractTail supply r n1

/-- All fields of an artifact except the run-dependent `artifact_id`. -/
def Artifact.core (a : Artifact) :
    String × String × String × Option String × Option String × Bool :=
  (a.filename, a.content, a.language, a.short, a.detailed, a.is_diff)

/-- Scenario A's response: one fenced block labelled `python app.py`. -/
def scenarioA : String := "```python app.py\nprint(\"hi\")\n```"

/-- A fixed id supply used for concrete counterexamples. -/
def supplyNum : Nat → String := fun n => toString n

/-- A response that is a single git-style diff. -/
def gitResponse : String :=
  "diff --git a/f.txt b/f.txt\n--- a/f.txt\n+++ b/f.txt\n@@ -1,1 +1,1 @@\n-x\n+y"

/-- A response with a filename-labelled fence followed by a git diff. -/
def mixedResponse : String :=
  "f.txt\n```python\nx=1\n```\ndiff --git a/g.txt b/g.txt\n--- a/g.txt\n+++ b/g.txt\n@@ -1,1 +1,1 @@\n-x\n+y"

/-- A response that is exactly one triple-fenced block. -/
def mkFence3 (lang body : Str) : Str :=
  "```".data ++ lang ++ chNL :: (body ++ "\n```".data)

/-- If every item of a prefix applies cleanly, applying the longer list first
runs that prefix. -/
theorem applyGo_ok_append (fs : FileSys) (pd : String) :
    ∀ (pre : List Artifact) (st st1 : FileHandlerSt) (rest : List Artifact),
    applyGo fs pd st pre = (st1, true) →
    applyGo fs pd st (pre ++ rest) = applyGo fs pd st1 rest := by
  intro pre
  induction pre with
  | nil =>
    intro st st1 rest h
    simp only [applyGo] at h
    rw [List.nil_append, (Prod.mk.injEq _ _ _ _).mp h |>.1]
  | cons item pre ih =>
    intro st st1 rest h
    rw [List.cons_append]
    simp only [applyGo] at h ⊢
    cases happly : applyItem fs pd st item with
    | mk st' opt =>
      cases opt with
      | none =>
        rw [happly] at h
        exact ih st' st1 rest h
      | some e =>
        rw [happly] at h
        exact absurd ((Prod.mk.injEq _ _ _ _).mp h).2 (by simp)

/-- C1.  The claim fails on the code: a context mismatch in the first diff
artifact aborts the whole `apply_result` call, so the well-formed sibling
artifact `goodItemB` is never applied (no `p/b.txt` entry is created). -/
theorem c1_counterexample :
    applyResult [] "p" stC1 [badDiffItem, goodItemB] = (stC1, false) ∧
    alookup "p/b.txt" stC1.contents = none :=
  ⟨rfl, rfl⟩

/-- C1 (amended).  A mismatch failure in one diff artifact aborts the batch at
that artifact: items before it in the list stay applied, `apply_result`
returns `False`, and items after it are never applied. -/
theorem c1_failure_aborts_batch
    (fs : FileSys) (pd : String) (st st1 st2 : FileHandlerSt)
    (pre post : List Artifact) (bad : Artifact) (e : DiffErr)
    (h1 : applyGo fs pd st pre = (st1, true))
    (h2 : applyItem fs pd st1 bad = (st2, some e)) :
    applyResult fs pd st (pre ++ bad :: post) = (st2, false) := by
  have hne : pre ++ bad :: post ≠ [] := by cases pre <;> simp
  unfold applyResult
  rw [if_neg hne, applyGo_ok_append fs pd pre st st1 (bad :: post) h1]
  simp only [applyGo, h2]

/-- Witness for C1 (amended): with `goodItemB` before the failing artifact and
`goodItemC` after it, the call stops at the failure with `goodItemB` applied
and `goodItemC` not. -/
theorem c1_failure_aborts_batch_witness :
    applyResult [] "p" stC1 [goodItemB, badDiffItem, goodItemC] =
      (stC1b, false) :=
  c1_failure_aborts_batch [] "p" stC1 stC1b stC1b [goodItemB] [goodItemC]
    badDiffItem (DiffErr.contextMismatch 2) rfl rfl

/-- C3.  Scenario C: applying the single-hunk diff to
`"line1\nline2\nline3"` succeeds and the target buffer holds exactly
`"line1\nline2 modified\nline3"`. -/
theorem c3_scenario_c_applies :
    applyDiffPy "line1\nline2\nline3" scenarioCDiff =
      .ok "line1\nline2 modified\nline3" ∧
    (applyResult [] "p" stC3 [itemC3]).2 = true ∧
    alookup "p/f.txt" (applyResult [] "p" stC3 [itemC3]).1.contents =
      some "line1\nline2 modified\nline3" :=
  ⟨rfl, rfl, rfl⟩

/-- C4.  Re-applying Scenario C's diff against its own output fails with a
removed-line mismatch at line 2; `apply_result` returns `False` and the
buffer keeps the first application's output (no silent no-op). -/
theorem c4_reapply_rejected :
    applyDiffPy "line1\nline2 modified\nline3" scenarioCDiff =
      .error (.removedMismatch 2) ∧
    (applyResult [] "p" stC4 [itemC3]).2 = false ∧
    alookup "p/f.txt" (applyResult [] "p" stC4 [itemC3]).1.contents =
      some "line1\nline2 modified\nline3" :=
  ⟨rfl, rfl, rfl⟩

/-- A successful Python index read implies the index is below the length. -/
theorem pyIdx_some_lt {α : Type} (l : List α) (i : Int) (v : α)
    (h : pyIdx l i = some v) : i < (l.length : Int) := by
  unfold pyIdx at h
  by_cases h0 : 0 ≤ i
  · rw [if_pos h0] at h
    have hlt := List.get?_eq_some.mp h |>.1
    omega
  · omega

/-- A nonnegative index below the length reads successfully. -/
theorem pyIdx_nonneg_some {α : Type} (l : List α) (i : Int)
    (h0 : 0 ≤ i) (hlt : i < (l.length : Int)) : ∃ v, pyIdx l i = some v := by
  unfold pyIdx
  rw [if_pos h0]
  have hn : i.toNat < l.length := by omega
  exact ⟨l.get ⟨i.toNat, hn⟩, List.get?_eq_get hn⟩

/-- A line starting with `-` does not start with a space. -/
theorem dash_not_space (hl : Str) (h : startsWith hl "-".data = true) :
    startsWith hl [chSpace] = false := by
  cases hl with
  | nil => simp [startsWith, List.isPrefixOf] at h
  | cons c t =>
    simp [startsWith, List.isPrefixOf] at h ⊢
    rw [← h]
    decide

/-- C2.  Mismatch handling of the patch applier: (a) a context line whose text
differs from the original line at the cursor — or whose cursor is past the
end — fails with a context mismatch citing the 1-based line `cursor + 1`;
(b) likewise a removal line fails with a removed-line mismatch; (c) whenever
an `apply_result` iteration raises, every previously buffered path keeps its
exact previous content (the in-progress output is discarded, nothing is
committed); (d) Scenario D concretely: the diff claiming `" b"` against
`"a\nX\nc"` fails citing line 2 and the buffer still holds `"a\nX\nc"`. -/
theorem c2_mismatch_fails_and_preserves_buffer :
    (∀ (lines : List Str) (hl : Str) (rest : List Str) (pos : Int)
      (acc : List Str),
      startsWith hl [chSpace] = true →
      ((lines.length : Int) ≤ pos ∨
        ∃ v, pyIdx lines pos = some v ∧ hl.drop 1 ≠ v) →
      hunkWalk lines (hl :: rest) pos acc =
        .error (.contextMismatch (pos + 1))) ∧
    (∀ (lines : List Str) (hl : Str) (rest : List Str) (pos : Int)
      (acc : List Str),
      startsWith hl "-".data = true →
      ((lines.length : Int) ≤ pos ∨
        ∃ v, pyIdx lines pos = some v ∧ hl.drop 1 ≠ v) →
      hunkWalk lines (hl :: rest) pos acc =
        .error (.removedMismatch (pos + 1))) ∧
    (∀ (fs : FileSys) (pd : String) (st st' : FileHandlerSt)
      (item : Artifact) (e : DiffErr),
      applyItem fs pd st item = (st', some e) →
      (∀ p v, alookup p st.contents = some v →
        alookup p st'.contents = some v) ∧
      st'.current_files = st.current_files ∧
      st'.original_contents = st.original_contents) ∧
    (applyDiffPy "a\nX\nc" scenarioDDiff = .error (.contextMismatch 2) ∧
      applyResult [] "p" stC1 [badDiffItem] = (stC1, false)) := by
  refine ⟨?_, ?_, ?_, rfl, rfl⟩
  · intro lines hl rest pos acc h1 h2
    simp only [hunkWalk, h1, if_true]
    rcases h2 with hge | ⟨v, hv, hne⟩
    · rw [if_neg (by omega : ¬ pos < (lines.length : Int))]
    · rw [if_pos (pyIdx_some_lt lines pos v hv), hv]
      simp only [if_neg hne]
  · intro lines hl rest pos acc h1 h2
    simp only [hunkWalk, dash_not_space hl h1, h1, if_true,
      Bool.false_eq_true, if_false]
    rcases h2 with hge | ⟨v, hv, hne⟩
    · rw [if_neg (by omega : ¬ pos < (lines.length : Int))]
    · rw [if_pos (pyIdx_some_lt lines pos v hv), hv]
      simp only [if_neg hne]
  · intro fs pd st st' item e h
    unfold applyItem at h
    split at h
    · exact absurd ((Prod.mk.injEq _ _ _ _).mp h).2 (by simp)
    · split at h
      · exact absurd ((Prod.mk.injEq _ _ _ _).mp h).2 (by simp)
      · split at h
        · unfold applyDiffBranch at h
          cases hq : alookup (resolvePath pd (String.mk (pyStrip item.filename.data))) st.contents with
          | some c =>
            simp only [lazyLoad, hq] at h
            cases hd : applyDiffPy c item.content with
            | error e' =>
              rw [hd] at h
              obtain ⟨h1, _⟩ := (Prod.mk.injEq _ _ _ _).mp h
              subst h1
              exact ⟨fun p v hv => hv, rfl, rfl⟩
            | ok newText =>
              rw [hd] at h
              exact absurd ((Prod.mk.injEq _ _ _ _).mp h).2 (by simp)
          | none =>
            cases hf : alookup (resolvePath pd (String.mk (pyStrip item.filename.data))) fs with
            | some c =>
              simp only [lazyLoad, hq, hf] at h
              cases hd : applyDiffPy c item.content with
              | error e' =>
                rw [hd] at h
                obtain ⟨h1, _⟩ := (Prod.mk.injEq _ _ _ _).mp h
                subst h1
                refine ⟨fun p v hv => ?_, rfl, rfl⟩
                simp only [aset, alookup]
                rw [if_neg (fun hpe => by rw [hpe, hv] at hq; cases hq)]
                exact hv
              | ok newText =>
                rw [hd] at h
                exact absurd ((Prod.mk.injEq _ _ _ _).mp h).2 (by simp)
            | none =>
              simp only [lazyLoad, hq, hf] at h
              cases hd : applyDiffPy "" item.content with
              | error e' =>
                rw [hd] at h
                obtain ⟨h1, _⟩ := (Prod.mk.injEq _ _ _ _).mp h
                subst h1
                refine ⟨fun p v hv => ?_, rfl, rfl⟩
                simp only [aset, alookup]
                rw [if_neg (fun hpe => by rw [hpe, hv] at hq; cases hq)]
                exact hv
              | ok newText =>
                rw [hd] at h
                exact absurd ((Prod.mk.injEq _ _ _ _).mp h).2 (by simp)
        · exact absurd ((Prod.mk.injEq _ _ _ _).mp h).2 (by simp)

/-- Witness for C2 at concrete inputs: a mismatching context line, a
mismatching removal line, and the preserved buffer of Scenario D. -/
theorem c2_witness :
    hunkWalk ["X".data] [" b".data] 0 [] = .error (.contextMismatch 1) ∧
    hunkWalk ["X".data] ["-b".data] 0 [] = .error (.removedMismatch 1) ∧
    alookup "p/a.txt" (applyItem [] "p" stC1 badDiffItem).1.contents =
      some "a\nX\nc" :=
  ⟨c2_mismatch_fails_and_preserves_buffer.1 ["X".data] " b".data [] 0 []
      (by decide) (Or.inr ⟨"X".data, rfl, by decide⟩),
   c2_mismatch_fails_and_preserves_buffer.2.1 ["X".data] "-b".data [] 0 []
      (by decide) (Or.inr ⟨"X".data, rfl, by decide⟩),
   (c2_mismatch_fails_and_preserves_buffer.2.2.1 [] "p" stC1 stC1 badDiffItem
      (DiffErr.contextMismatch 2) rfl).1 "p/a.txt" "a\nX\nc" rfl⟩

/-- From a nonnegative cursor the pre-hunk copy loop cannot raise, and it
returns a nonnegative cursor. -/
theorem copyUpTo_nonneg (fuel : Nat) (lines : List Str) :
    ∀ (pos tgt : Int) (acc : List Str), 0 ≤ pos →
    ∃ acc' pos', copyUpTo fuel lines pos tgt acc = .ok (acc', pos') ∧
      0 ≤ pos' := by
  induction fuel with
  | zero => intro pos tgt acc h0; exact ⟨acc, pos, rfl, h0⟩
  | succ fuel ih =>
    intro pos tgt acc h0
    simp only [copyUpTo]
    by_cases h1 : pos < tgt
    · rw [if_pos h1]
      by_cases h2 : pos < (lines.length : Int)
      · rw [if_pos h2]
        obtain ⟨v, hv⟩ := pyIdx_nonneg_some lines pos h0 h2
        rw [hv]
        exact ih (pos + 1) tgt (acc ++ [v]) (by omega)
      · rw [if_neg h2]
        exact ⟨acc, pos, rfl, h0⟩
    · rw [if_neg h1]
      exact ⟨acc, pos, rfl, h0⟩

/-- From a nonnegative cursor the hunk walk either succeeds with a
nonnegative cursor or raises one of the two mismatch errors — never an
index error. -/
theorem hunkWalk_classify (lines : List Str) :
    ∀ (hunkLines : List Str) (pos : Int) (acc : List Str), 0 ≤ pos →
    (∃ acc' pos', hunkWalk lines hunkLines pos acc = .ok (acc', pos') ∧
      0 ≤ pos') ∨
    (∃ n, hunkWalk lines hunkLines pos acc = .error (.contextMismatch n)) ∨
    (∃ n, hunkWalk lines hunkLines pos acc = .error (.removedMismatch n)) := by
  intro hunkLines
  induction hunkLines with
  | nil => intro pos acc h0; exact Or.inl ⟨acc, pos, rfl, h0⟩
  | cons hl rest ih =>
    intro pos acc h0
    simp only [hunkWalk]
    by_cases hsp : startsWith hl [chSpace] = true
    · simp only [hsp, if_true]
      by_cases hlt : pos < (lines.length : Int)
      · rw [if_pos hlt]
        obtain ⟨v, hv⟩ := pyIdx_nonneg_some lines pos h0 hlt
        rw [hv]
        by_cases heq : hl.drop 1 = v
        · simp only [if_pos heq]
          exact ih (pos + 1) (acc ++ [v]) (by omega)
        · simp only [if_neg heq]
          exact Or.inr (Or.inl ⟨pos + 1, rfl⟩)
      · rw [if_neg hlt]
        exact Or.inr (Or.inl ⟨pos + 1, rfl⟩)
    · simp only [hsp, if_false, Bool.not_eq_true] at *
      simp only [hsp, Bool.false_eq_true, if_false]
      by_cases hda : startsWith hl "-".data = true
      · simp only [hda, if_true]
        by_cases hlt : pos < (lines.length : Int)
        · rw [if_pos hlt]
          obtain ⟨v, hv⟩ := pyIdx_nonneg_some lines pos h0 hlt
          rw [hv]
          by_cases heq : hl.drop 1 = v
          · simp only [if_pos heq]
            exact ih (pos + 1) acc (by omega)
          · simp only [if_neg heq]
            exact Or.inr (Or.inr ⟨pos + 1, rfl⟩)
        · rw [if_neg hlt]
          exact Or.inr (Or.inr ⟨pos + 1, rfl⟩)
      · simp only [Bool.not_eq_true] at hda
        simp only [hda, Bool.false_eq_true, if_false]
        by_cases hpl : startsWith hl "+".data = true
        · simp only [hpl, if_true]
          exact ih pos (acc ++ [hl.drop 1]) h0
        · simp only [Bool.not_eq_true] at hpl
          simp only [hpl, Bool.false_eq_true, if_false]
          exact ih pos acc h0

/-- If every hunk's header start is at least 1, the hunk loop keeps a
nonnegative cursor and never raises an index error. -/
theorem applyHunksGo_classify (lines : List Str) :
    ∀ (hunks : List Hunk) (pos : Int) (acc : List Str), 0 ≤ pos →
    (∀ hk ∈ hunks, 1 ≤ hk.originalStart) →
    (∃ acc' pos', applyHunksGo lines hunks pos acc = .ok (acc', pos') ∧
      0 ≤ pos') ∨
    (∃ n, applyHunksGo lines hunks pos acc = .error (.contextMismatch n)) ∨
    (∃ n, applyHunksGo lines hunks pos acc = .error (.removedMismatch n)) := by
  intro hunks
  induction hunks with
  | nil => intro pos acc h0 _; exact Or.inl ⟨acc, pos, rfl, h0⟩
  | cons hk rest ih =>
    intro pos acc h0 hall
    have hos : (0 : Int) ≤ (hk.originalStart : Int) - 1 := by
      have := hall hk (by simp)
      omega
    simp only [applyHunksGo]
    obtain ⟨acc1, p1, hcopy, _⟩ :=
      copyUpTo_nonneg (((hk.originalStart : Int) - 1) - pos).toNat lines pos
        ((hk.originalStart : Int) - 1) acc h0
    simp only [hcopy]
    rcases hunkWalk_classify lines hk.lines ((hk.originalStart : Int) - 1)
        acc1 hos with ⟨acc2, pos2, hwalk, hpos2⟩ | ⟨n, hwalk⟩ | ⟨n, hwalk⟩
    · simp only [hwalk]
      exact ih pos2 acc2 hpos2 (fun x hx => hall x (by simp [hx]))
    · simp only [hwalk]
      exact Or.inr (Or.inl ⟨n, rfl⟩)
    · simp only [hwalk]
      exact Or.inr (Or.inr ⟨n, rfl⟩)

/-- From a nonnegative cursor the trailing copy loop cannot raise. -/
theorem trailingCopy_nonneg (fuel : Nat) (lines : List Str) :
    ∀ (pos : Int) (acc : List Str), 0 ≤ pos →
    ∃ out, trailingCopy fuel lines pos acc = .ok out := by
  induction fuel with
  | zero => intro pos acc _; exact ⟨acc, rfl⟩
  | succ fuel ih =>
    intro pos acc h0
    simp only [trailingCopy]
    by_cases h2 : pos < (lines.length : Int)
    · rw [if_pos h2]
      obtain ⟨v, hv⟩ := pyIdx_nonneg_some lines pos h0 h2
      rw [hv]
      exact ih (pos + 1) (acc ++ [v]) (by omega)
    · rw [if_neg h2]
      exact ⟨acc, rfl⟩

/-- C10 (amended).  Every original-line access of the applier is guarded only
by the upper bound `cursor < len`: (a)/(b) an out-of-range cursor at or past
the end at a context/removal line yields the corresponding mismatch error;
(c) when every hunk header's `originalStart` is at least 1 the cursor stays
nonnegative and no list access can fail, so the applier never raises an index
error; (d) but a header with `originalStart = 0` sets the cursor to `-1`,
which the guard admits, and on an empty original the Python list access
raises `IndexError` instead of a mismatch error. -/
theorem c10_bounds_guarded :
    (∀ (lines : List Str) (hl : Str) (rest : List Str) (pos : Int)
      (acc : List Str),
      startsWith hl [chSpace] = true → (lines.length : Int) ≤ pos →
      hunkWalk lines (hl :: rest) pos acc =
        .error (.contextMismatch (pos + 1))) ∧
    (∀ (lines : List Str) (hl : Str) (rest : List Str) (pos : Int)
      (acc : List Str),
      startsWith hl "-".data = true → (lines.length : Int) ≤ pos →
      hunkWalk lines (hl :: rest) pos acc =
        .error (.removedMismatch (pos + 1))) ∧
    (∀ (original diffText : Str),
      (∀ hk ∈ parseHunks (pySplitlines diffText), 1 ≤ hk.originalStart) →
      applyDiffL original diffText ≠ .error .indexError) ∧
    applyDiffPy "" "@@ -0,0 +1,1 @@\n+x" = .error .indexError := by
  refine ⟨?_, ?_, ?_, rfl⟩
  · intro lines hl rest pos acc h1 h2
    simp only [hunkWalk, h1, if_true]
    rw [if_neg (by omega : ¬ pos < (lines.length : Int))]
  · intro lines hl rest pos acc h1 h2
    simp only [hunkWalk, dash_not_space hl h1, h1, if_true,
      Bool.false_eq_true, if_false]
    rw [if_neg (by omega : ¬ pos < (lines.length : Int))]
  · intro original diffText hall
    simp only [applyDiffL]
    rcases applyHunksGo_classify (pySplitlines original)
        (parseHunks (pySplitlines diffText)) 0 [] (by omega) hall with
      ⟨acc, pos', heq, hpos⟩ | ⟨n, heq⟩ | ⟨n, heq⟩
    · simp only [heq]
      obtain ⟨out, ho⟩ :=
        trailingCopy_nonneg ((((pySplitlines original).length : Int) - pos').toNat)
          (pySplitlines original) pos' acc hpos
      simp only [ho]
      simp
    · simp only [heq]
      simp
    · simp only [heq]
      simp

/-- C10.  The claim fails on the code: the degenerate header
`@@ -0,0 +1,1 @@` puts the cursor at `-1`; the guard `hunk_pos < len` admits
it, and against an empty original the context-line access raises a Python
`IndexError` — an out-of-bounds access, not the claimed mismatch error. -/
theorem c10_counterexample :
    applyDiffPy "" "@@ -0,0 +1,1 @@\n x" = .error .indexError ∧
    ∀ n, DiffErr.indexError ≠ .contextMismatch n ∧
      DiffErr.indexError ≠ .removedMismatch n := by
  refine ⟨rfl, fun n => ⟨?_, ?_⟩⟩ <;> intro h <;> cases h

/-- Witness for C10 at concrete inputs: out-of-range context and removal
cursors yield mismatches, and a well-formed one-hunk diff cannot raise an
index error. -/
theorem c10_witness :
    hunkWalk ["a".data] [" x".data] 5 [] = .error (.contextMismatch 6) ∧
    hunkWalk ["a".data] ["-x".data] 5 [] = .error (.removedMismatch 6) ∧
    applyDiffL "a".data "@@ -1,1 +1,1 @@\n a".data ≠ .error .indexError :=
  ⟨c10_bounds_guarded.1 ["a".data] " x".data [] 5 [] (by decide) (by decide),
   c10_bounds_guarded.2.1 ["a".data] "-x".data [] 5 [] (by decide) (by decide),
   c10_bounds_guarded.2.2.1 "a".data "@@ -1,1 +1,1 @@\n a".data (by decide)⟩

theorem alookup_aset_self (k v : String) (m : List (String × String)) :
    alookup k (aset k v m) = some v := by
  simp [aset, alookup]

theorem alookup_aset_ne (k q v : String) (m : List (String × String))
    (h : ¬ k = q) : alookup q (aset k v m) = alookup q m := by
  simp [aset, alookup, h]

theorem addCurrent_orig (p : String) (st : FileHandlerSt) :
    (addCurrent p st).original_contents = st.original_contents := by
  unfold addCurrent
  split <;> rfl

theorem addCurrent_contents (p : String) (st : FileHandlerSt) :
    (addCurrent p st).contents = st.contents := by
  unfold addCurrent
  split <;> rfl

theorem lazyLoad_orig (fs : FileSys) (p : String) (st : FileHandlerSt) :
    (lazyLoad fs p st).1.original_contents = st.original_contents := by
  unfold lazyLoad
  rcases hq : alookup p st.contents with _ | c
  · rcases hf : alookup p fs with _ | c <;> simp [hq, hf]
  · simp [hq]

theorem applyDiffBranch_orig (fs : FileSys) (p : String) (st : FileHandlerSt)
    (d : String) :
    (applyDiffBranch fs p st d).1.original_contents = st.original_contents := by
  unfold applyDiffBranch
  cases hd : applyDiffPy (lazyLoad fs p st).2 d <;>
    simp [hd, addCurrent_orig, lazyLoad_orig]

theorem applyFullBranch_orig (p : String) (st : FileHandlerSt)
    (item : Artifact) :
    (applyFullBranch p st item).original_contents = st.original_contents := by
  simp [applyFullBranch, addCurrent_orig]

theorem applyItem_orig (fs : FileSys) (pd : String) (st : FileHandlerSt)
    (item : Artifact) :
    (applyItem fs pd st item).1.original_contents = st.original_contents := by
  unfold applyItem
  split
  · rfl
  split
  · rfl
  split
  · exact applyDiffBranch_orig fs _ st item.content
  · exact applyFullBranch_orig _ st item

theorem applyGo_orig (fs : FileSys) (pd : String) :
    ∀ (items : List Artifact) (st : FileHandlerSt),
    (applyGo fs pd st items).1.original_contents = st.original_contents := by
  intro items
  induction items with
  | nil => intro st; rfl
  | cons item rest ih =>
    intro st
    simp only [applyGo]
    cases happly : applyItem fs pd st item with
    | mk st' opt =>
      have horig : st'.original_contents = st.original_contents := by
        have := applyItem_orig fs pd st item
        rw [happly] at this
        exact this
      cases opt with
      | none => rw [ih st', horig]
      | some e => exact horig

/-- Exact behaviour of the `save_file` loop on a duplicate-free path list:
the written set is precisely the paths whose current content differs from the
recorded original (with `''` as the default for paths never snapshotted), and
exactly those paths get their original content and on-disk content reset to
the current content. -/
theorem saveGo_spec :
    ∀ (cur : List String) (contents origs : List (String × String))
      (fs : FileSys), cur.Nodup →
    (saveGo cur contents origs fs).2.2 =
      cur.filter
        (fun p => decide (alookupD p contents "" ≠ alookupD p origs "")) ∧
    (∀ q, alookup q (saveGo cur contents origs fs).1 =
      if q ∈ (saveGo cur contents origs fs).2.2
      then some (alookupD q contents "") else alookup q origs) ∧
    (∀ q, alookup q (saveGo cur contents origs fs).2.1 =
      if q ∈ (saveGo cur contents origs fs).2.2
      then some (alookupD q contents "") else alookup q fs) := by
  intro cur
  induction cur with
  | nil =>
    intro contents origs fs _
    refine ⟨rfl, fun q => ?_, fun q => ?_⟩ <;> simp [saveGo]
  | cons p rest ih =>
    intro contents origs fs hnd
    have hp : p ∉ rest := (List.nodup_cons.mp hnd).1
    have hrest : rest.Nodup := (List.nodup_cons.mp hnd).2
    by_cases hch : alookupD p contents "" ≠ alookupD p origs ""
    · have hGo : saveGo (p :: rest) contents origs fs =
          ((saveGo rest contents (aset p (alookupD p contents "") origs)
              (aset p (alookupD p contents "") fs)).1,
           (saveGo rest contents (aset p (alookupD p contents "") origs)
              (aset p (alookupD p contents "") fs)).2.1,
           p :: (saveGo rest contents (aset p (alookupD p contents "") origs)
              (aset p (alookupD p contents "") fs)).2.2) := by
        simp [saveGo, hch]
      obtain ⟨ihf, ihorig, ihfs⟩ :=
        ih contents (aset p (alookupD p contents "") origs)
          (aset p (alookupD p contents "") fs) hrest
      have key : ∀ q ∈ rest,
          (decide (alookupD q contents "" ≠
            alookupD q (aset p (alookupD p contents "") origs) "")) =
          (decide (alookupD q contents "" ≠ alookupD q origs "")) := by
        intro q hq
        have hqp : ¬ p = q := fun h => hp (h ▸ hq)
        simp [alookupD, aset, alookup, hqp]
      have hsub : (saveGo rest contents
          (aset p (alookupD p contents "") origs)
          (aset p (alookupD p contents "") fs)).2.2 =
          rest.filter
            (fun q => decide (alookupD q contents "" ≠ alookupD q origs "")) := by
        rw [ihf]
        exact List.filter_congr key
      have hpnot : p ∉ (saveGo rest contents
          (aset p (alookupD p contents "") origs)
          (aset p (alookupD p contents "") fs)).2.2 := by
        rw [hsub]
        intro hmem
        exact hp (List.mem_filter.mp hmem).1
      refine ⟨?_, fun q => ?_, fun q => ?_⟩
      · rw [hGo]
        show p :: _ = List.filter _ (p :: rest)
        rw [List.filter_cons_of_pos (by simpa using hch), hsub]
      · rw [hGo]
        show alookup q _ = if q ∈ p :: _ then _ else _
        by_cases hqp : q = p
        · subst hqp
          rw [ihorig q, if_neg hpnot, alookup_aset_self, if_pos (by simp)]
        · rw [ihorig q, alookup_aset_ne p q _ _ (fun h => hqp h.symm)]
          by_cases hmem : q ∈ (saveGo rest contents
              (aset p (alookupD p contents "") origs)
              (aset p (alookupD p contents "") fs)).2.2
          · rw [if_pos hmem, if_pos (by simp [hmem])]
          · rw [if_neg hmem, if_neg (by simp [hmem, hqp])]
      · rw [hGo]
        show alookup q _ = if q ∈ p :: _ then _ else _
        by_cases hqp : q = p
        · subst hqp
          rw [ihfs q, if_neg hpnot, alookup_aset_self, if_pos (by simp)]
        · rw [ihfs q, alookup_aset_ne p q _ _ (fun h => hqp h.symm)]
          by_cases hmem : q ∈ (saveGo rest contents
              (aset p (alookupD p contents "") origs)
              (aset p (alookupD p contents "") fs)).2.2
          · rw [if_pos hmem, if_pos (by simp [hmem])]
          · rw [if_neg hmem, if_neg (by simp [hmem, hqp])]
    · have hGo : saveGo (p :: rest) contents origs fs =
          saveGo rest contents origs fs := by
        simp [saveGo, hch]
      obtain ⟨ihf, ihorig, ihfs⟩ := ih contents origs fs hrest
      refine ⟨?_, fun q => ?_, fun q => ?_⟩
      · rw [hGo, ihf]
        rw [List.filter_cons_of_neg (by simpa using hch)]
      · rw [hGo, ihorig q]
      · rw [hGo, ihfs q]

/-- C9.  The claim fails on the code: a diff artifact lazily loading the
on-disk `p/f.txt` (content `"a"`) and applying a pure-context hunk leaves
`currentContent = "a"` — unchanged — yet no `originalContent` snapshot is
recorded, so the save criterion (`original_contents.get(path, '')`) treats
the file as dirty and `save_file` writes it. -/
theorem c9_counterexample :
    alookup "p/f.txt" fsC9 = some "a" ∧
    (applyResult fsC9 "p" stEmpty [itemC9]).2 = true ∧
    alookup "p/f.txt" (applyResult fsC9 "p" stEmpty [itemC9]).1.contents =
      some "a" ∧
    (applyResult fsC9 "p" stEmpty [itemC9]).1.original_contents = [] ∧
    (saveFile (applyResult fsC9 "p" stEmpty [itemC9]).1 fsC9).2.2.2 =
      ["p/f.txt"] :=
  ⟨rfl, rfl, rfl, rfl, rfl⟩

/-- C9 (amended).  `originalContent` is snapshotted by an explicit load (and
reset by a save) but never by the lazy load of a diff target: (a) loading an
existing path seeds `contents` and `original_contents` with the disk text;
(b) `apply_result` never touches `original_contents`, so a path first
referenced by a diff artifact has no snapshot and is compared against `''`;
(c) on a duplicate-free `current_files`, `save_file` succeeds and writes
exactly the paths whose current content differs from
`original_contents.get(path, '')`, resetting the snapshot and the disk
content of exactly those paths to the current content. -/
theorem c9_snapshot_and_save :
    (∀ (fs : FileSys) (pd : String) (st : FileHandlerSt) (path c : String),
      alookup (resolvePath pd path) fs = some c →
      alookup (resolvePath pd path) (loadOne fs pd st path).1.contents =
        some c ∧
      alookup (resolvePath pd path)
        (loadOne fs pd st path).1.original_contents = some c ∧
      (loadOne fs pd st path).2 = true) ∧
    (∀ (fs : FileSys) (pd : String) (st : FileHandlerSt)
      (items : List Artifact),
      (applyResult fs pd st items).1.original_contents =
        st.original_contents) ∧
    (∀ (st : FileHandlerSt) (fs : FileSys), st.current_files ≠ [] →
      st.current_files.Nodup →
      (saveFile st fs).2.2.1 = true ∧
      (saveFile st fs).2.2.2 = st.current_files.filter
        (fun p => decide
          (alookupD p st.contents "" ≠ alookupD p st.original_contents "")) ∧
      (∀ q, alookup q (saveFile st fs).1.original_contents =
        if q ∈ (saveFile st fs).2.2.2
        then some (alookupD q st.contents "")
        else alookup q st.original_contents) ∧
      (∀ q, alookup q (saveFile st fs).2.1 =
        if q ∈ (saveFile st fs).2.2.2
        then some (alookupD q st.contents "") else alookup q fs)) := by
  refine ⟨?_, ?_, ?_⟩
  · intro fs pd st path c h
    simp only [loadOne, h, addCurrent_contents, addCurrent_orig]
    exact ⟨alookup_aset_self _ _ _, alookup_aset_self _ _ _, trivial⟩
  · intro fs pd st items
    unfold applyResult
    split
    · rfl
    · exact applyGo_orig fs pd items st
  · intro st fs hne hnd
    obtain ⟨hf, horig, hfs⟩ :=
      saveGo_spec st.current_files st.contents st.original_contents fs hnd
    unfold saveFile
    rw [if_neg hne]
    exact ⟨rfl, hf, horig, hfs⟩

/-- Witness for C9: the loaded snapshot, the untouched snapshot map after a
lazy-load diff application, and a save writing exactly the one dirty path. -/
theorem c9_witness :
    alookup "p/f.txt" (loadOne fsC9 "p" stEmpty "f.txt").1.original_contents =
      some "a" ∧
    (applyResult fsC9 "p" stEmpty [itemC9]).1.original_contents = [] ∧
    (saveFile stC4 fsC9).2.2.2 = ["p/f.txt"] :=
  ⟨(c9_snapshot_and_save.1 fsC9 "p" stEmpty "f.txt" "a" rfl).2.1,
   c9_snapshot_and_save.2.1 fsC9 "p" stEmpty [itemC9],
   ((c9_snapshot_and_save.2.2 stC4 fsC9 (by decide) (by decide)).2.1).trans
     (by decide)⟩

/-- C5.  The claim fails on the code: for Scenario A's input the whole fence
label `"python app.py"` (it contains a dot) becomes the filename and the
language is left empty — the label is never split into a language token and
a filename token. -/
theorem c5_counterexample :
    extract supplyNum scenarioA =
      some [⟨"python app.py", "print(\"hi\")", "", none, none, "0", false⟩] ∧
    ("python app.py" : String) ≠ "app.py" :=
  ⟨rfl, by decide⟩

/-- C5 (amended).  For Scenario A's input, extraction returns exactly one
artifact whose filename is the entire fence label `"python app.py"`, whose
language is empty, and whose content is the block body — for every id
supply. -/
theorem c5_whole_label_becomes_filename (supply : Nat → String) :
    extract supply scenarioA =
      some [{ filename := "python app.py", content := "print(\"hi\")",
              language := "", short := none, detailed := none,
              artifact_id := supply 0, is_diff := false }] := rfl

/-- C7.  The claim fails on the code: for a single git-style diff response,
both the unified-diff pattern and the git-diff pattern match, and their
artifacts are concatenated — the result holds the same logical change twice,
once from each strategy, rather than the first matching strategy's output
alone.  (Both bodies are also truncated to the hunk header by the
`re.MULTILINE` `$` inside the lookahead.) -/
theorem c7_counterexample :
    extract supplyNum gitResponse =
      some [⟨"f.txt", "@@ -1,1 +1,1 @@", "diff", none, none, "0", true⟩,
            ⟨"f.txt", "@@ -1,1 +1,1 @@", "diff", none, none, "1", true⟩] ∧
    udArtifacts gitResponse.data =
      [⟨"f.txt", "@@ -1,1 +1,1 @@", "diff", none, none, "", true⟩] ∧
    gdArtifacts gitResponse.data =
      [⟨"f.txt", "@@ -1,1 +1,1 @@", "diff", none, none, "", true⟩] ∧
    f4Artifacts gitResponse.data = [] ∧
    f3Artifacts gitResponse.data = [] :=
  ⟨rfl, rfl, rfl, rfl, rfl⟩

/-- C7 (amended).  Only the two JSON strategies return exclusively; when they
yield nothing and the raw-fallback guard fails, the four-backtick,
triple-backtick, unified-diff and git-diff strategies all run and their
artifacts are concatenated in that order.  Concretely: a fence followed by a
git diff yields three artifacts — the fence block's, the unified pattern's
and the git pattern's — and a bare git diff yields the same artifact twice. -/
theorem c7_strategy_results_concatenated (supply : Nat → String) :
    extract supply mixedResponse =
      some [{ filename := "f.txt", content := "x=1", language := "python",
              artifact_id := supply 0, is_diff := false },
            { filename := "g.txt", content := "@@ -1,1 +1,1 @@",
              language := "diff", artifact_id := supply 1, is_diff := true },
            { filename := "g.txt", content := "@@ -1,1 +1,1 @@",
              language := "diff", artifact_id := supply 2, is_diff := true }] ∧
    extract supply gitResponse =
      some [{ filename := "f.txt", content := "@@ -1,1 +1,1 @@",
              language := "diff", artifact_id := supply 0, is_diff := true },
            { filename := "f.txt", content := "@@ -1,1 +1,1 @@",
              language := "diff", artifact_id := supply 1, is_diff := true }] :=
  ⟨rfl, rfl⟩

/-- C8.  The claim fails on the code: each appended artifact carries
`artifact_id = str(uuid.uuid4())`, a fresh random token, so two runs on the
same text differ field-for-field in `artifact_id` (modelled by two id
supplies standing for the two runs' random draws). -/
theorem c8_counterexample :
    extract (fun _ => "a") "hello" =
      some [⟨"", "hello", "", none, none, "a", false⟩] ∧
    extract (fun _ => "b") "hello" =
      some [⟨"", "hello", "", none, none, "b", false⟩] ∧
    extract (fun _ => "a") "hello" ≠ extract (fun _ => "b") "hello" :=
  ⟨rfl, rfl, by decide⟩

/-- Replacing ids leaves every other artifact field unchanged. -/
theorem setIds_core_map (sA : Nat → String) :
    ∀ (l : List Artifact) (n : Nat),
    (setIds sA l n).1.map Artifact.core = l.map Artifact.core := by
  intro l
  induction l with
  | nil => intro n; rfl
  | cons a rest ih =>
    intro n
    simp only [setIds, List.map_cons]
    rw [ih (n + 1)]
    rfl

/-- The whole-response JSON item loop depends on the id supply only through
the ids it attaches. -/
theorem s1Items_inv (sA sB : Nat → String) :
    ∀ (items : List JValue) (n : Nat),
    (s1Items sA items n).map (fun p => (p.1.map Artifact.core, p.2)) =
    (s1Items sB items n).map (fun p => (p.1.map Artifact.core, p.2)) := by
  intro items
  induction items with
  | nil => intro n; rfl
  | cons item rest ih =>
    intro n
    cases item with
    | jObj fields =>
      simp only [s1Items]
      cases hfn : jGetStr fields "filename".data with
      | none => rfl
      | some fn0 =>
        cases hlang : jGetStr fields "language".data with
        | none => rfl
        | some lang0 =>
          dsimp only
          split
          · exact ih n
          · split
            · have hIH := ih (n + 1)
              split
              · next hA =>
                split
                · rfl
                · next arts n' hB => rw [hA, hB] at hIH; simp at hIH
              · next arts n' hA =>
                split
                · next hB => rw [hA, hB] at hIH; simp at hIH
                · next artsB nB hB =>
                  rw [hA, hB] at hIH
                  simp only [Option.map_some', Option.some.injEq,
                    Prod.mk.injEq] at hIH ⊢
                  refine ⟨?_, hIH.2⟩
                  rw [List.map_cons, List.map_cons, hIH.1]
                  rfl
            · rfl
    | jNull => exact ih n
    | jBool b => exact ih n
    | jNum z => exact ih n
    | jStr s => exact ih n
    | jArr l => exact ih n

/-- The fenced-JSON item loop depends on the id supply only through the ids
it attaches. -/
theorem s2Items_inv (sA sB : Nat → String) :
    ∀ (items : List JValue) (n : Nat),
    (s2Items sA items n).map (fun p => (p.1.map Artifact.core, p.2)) =
    (s2Items sB items n).map (fun p => (p.1.map Artifact.core, p.2)) := by
  intro items
  induction items with
  | nil => intro n; rfl
  | cons item rest ih =>
    intro n
    cases item with
    | jObj fields =>
      simp only [s2Items]
      cases hfn : jGetStr fields "filename".data with
      | none => rfl
      | some fn0 =>
        cases hlang : jGetStr fields "language".data with
        | none => rfl
        | some lang0 =>
          dsimp only
          split
          · exact ih n
          · split
            · have hIH := ih (n + 1)
              split
              · next hA =>
                split
                · rfl
                · next arts n' hB => rw [hA, hB] at hIH; simp at hIH
              · next arts n' hA =>
                split
                · next hB => rw [hA, hB] at hIH; simp at hIH
                · next artsB nB hB =>
                  rw [hA, hB] at hIH
                  simp only [Option.map_some', Option.some.injEq,
                    Prod.mk.injEq] at hIH ⊢
                  refine ⟨?_, hIH.2⟩
                  rw [List.map_cons, List.map_cons, hIH.1]
                  rfl
            · rfl
    | jNull => exact ih n
    | jBool b => exact ih n
    | jNum z => exact ih n
    | jStr s => exact ih n
    | jArr l => exact ih n

/-- The fenced-JSON strategy over blocks depends on the id supply only
through the ids it attaches. -/
theorem s2Run_inv (sA sB : Nat → String) :
    ∀ (blocks : List Str) (n : Nat),
    (s2Run sA blocks n).map
      (fun p => (p.1.map (List.map Artifact.core), p.2)) =
    (s2Run sB blocks n).map
      (fun p => (p.1.map (List.map Artifact.core), p.2)) := by
  intro blocks
  induction blocks with
  | nil => intro n; rfl
  | cons block rest ih =>
    intro n
    simp only [s2Run]
    cases hj : jsonLoads (pyStrip block) with
    | none => exact ih n
    | some v =>
      cases v with
      | jArr items =>
        have hII := s2Items_inv sA sB items n
        dsimp only
        cases hA : s2Items sA items n with
        | none =>
          cases hB : s2Items sB items n with
          | none => rfl
          | some pB => rw [hA, hB] at hII; simp at hII
        | some pA =>
          cases hB : s2Items sB items n with
          | none => rw [hA, hB] at hII; simp at hII
          | some pB =>
            obtain ⟨artsA, nA⟩ := pA
            obtain ⟨artsB, nB⟩ := pB
            rw [hA, hB] at hII
            simp only [Option.map_some', Option.some.injEq,
              Prod.mk.injEq] at hII
            obtain ⟨hII1, hII2⟩ := hII
            subst hII2
            simp only [hA, hB]
            by_cases hA0 : artsA = []
            · have hB0 : artsB = [] := by
                rw [hA0] at hII1
                exact (List.map_eq_nil_iff.mp hII1.symm)
              rw [if_neg (fun h => h hA0), if_neg (fun h => h hB0)]
              exact ih nA
            · have hB0 : artsB ≠ [] := by
                intro h
                rw [h] at hII1
                exact hA0 (List.map_eq_nil_iff.mp hII1)
              rw [if_pos hA0, if_pos hB0]
              simp only [Option.map_some', Option.some.injEq, Prod.mk.injEq]
              exact ⟨hII1, trivial⟩
      | jNull => exact ih n
      | jBool b => exact ih n
      | jNum z => exact ih n
      | jStr s => exact ih n
      | jObj l => exact ih n

/-- The tail of `extract_code` depends on the id supply only through the ids
it attaches. -/
theorem extractTail_inv (sA sB : Nat → String) (r : Str) (n : Nat) :
    (extractTail sA r n).map (List.map Artifact.core) =
    (extractTail sB r n).map (List.map Artifact.core) := by
  unfold extractTail
  have h2 := s2Run_inv sA sB (scanFJ (r.length + 1) r) n
  cases hA : s2Run sA (scanFJ (r.length + 1) r) n with
  | none =>
    cases hB : s2Run sB (scanFJ (r.length + 1) r) n with
    | none => rfl
    | some pB => rw [hA, hB] at h2; simp at h2
  | some pA =>
    cases hB : s2Run sB (scanFJ (r.length + 1) r) n with
    | none => rw [hA, hB] at h2; simp at h2
    | some pB =>
      rw [hA, hB] at h2
      simp only [Option.map_some', Option.some.injEq, Prod.mk.injEq] at h2
      obtain ⟨oA, nA⟩ := pA
      obtain ⟨oB, nB⟩ := pB
      obtain ⟨h21, h22⟩ := h2
      cases oA with
      | some artsA =>
        cases oB with
        | some artsB =>
          simp only [Option.map_some', Option.some.injEq] at h21
          simp only [Option.map_some', Option.some.injEq]
          exact h21
        | none => simp at h21
      | none =>
        cases oB with
        | some artsB => simp at h21
        | none =>
          simp only at h22
          subst h22
          dsimp only
          split_ifs
          · rfl
          · rfl
          · rfl
          · simp only [Option.map_some', Option.some.injEq]
            rw [setIds_core_map, setIds_core_map]

/-- C8 (amended).  Extraction is deterministic in every artifact field except
`artifact_id`: for every input text and any two runs (modelled by two
fresh-id supplies), the extracted lists agree in length, order, and every
field other than the id. -/
theorem c8_deterministic_up_to_id (text : String) (sA sB : Nat → String) :
    (extract sA text).map (List.map Artifact.core) =
    (extract sB text).map (List.map Artifact.core) := by
  unfold extract
  by_cases h0 : pyStrip text.data = []
  · rw [if_pos h0, if_pos h0]
  · rw [if_neg h0, if_neg h0]
    cases hj : jsonLoads (pyStrip text.data) with
    | none =>
      simp only [hj, ne_eq, not_true_eq_false, if_false]
      exact extractTail_inv sA sB text.data 0
    | some v =>
      cases v with
      | jArr items =>
        have hI := s1Items_inv sA sB items 0
        cases hA : s1Items sA items 0 with
        | none =>
          cases hB : s1Items sB items 0 with
          | none => simp only [hj, hA, hB]
          | some pB => rw [hA, hB] at hI; simp at hI
        | some pA =>
          cases hB : s1Items sB items 0 with
          | none => rw [hA, hB] at hI; simp at hI
          | some pB =>
            rw [hA, hB] at hI
            simp only [Option.map_some', Option.some.injEq,
              Prod.mk.injEq] at hI
            obtain ⟨artsA, nA⟩ := pA
            obtain ⟨artsB, nB⟩ := pB
            obtain ⟨hI1, hI2⟩ := hI
            simp only at hI1 hI2
            subst hI2
            simp only [hj, hA, hB]
            by_cases hA0 : artsA = []
            · have hB0 : artsB = [] := by
                rw [hA0] at hI1
                exact (List.map_eq_nil_iff.mp hI1.symm)
              rw [if_neg (fun h => h hA0), if_neg (fun h => h hB0)]
              exact extractTail_inv sA sB text.data nA
            · have hB0 : artsB ≠ [] := by
                intro h
                rw [h] at hI1
                exact hA0 (List.map_eq_nil_iff.mp hI1)
              rw [if_pos hA0, if_pos hB0]
              simp only [Option.map_some', Option.some.injEq]
              exact hI1
      | jNull =>
        simp only [hj, ne_eq, not_true_eq_false, if_false]
        exact extractTail_inv sA sB text.data 0
      | jBool b =>
        simp only [hj, ne_eq, not_true_eq_false, if_false]
        exact extractTail_inv sA sB text.data 0
      | jNum z =>
        simp only [hj, ne_eq, not_true_eq_false, if_false]
        exact extractTail_inv sA sB text.data 0
      | jStr s =>
        simp only [hj, ne_eq, not_true_eq_false, if_false]
        exact extractTail_inv sA sB text.data 0
      | jObj l =>
        simp only [hj, ne_eq, not_true_eq_false, if_false]
        exact extractTail_inv sA sB text.data 0

/-- C6.  The claim fails on the code: a triple-fenced block with a language
token but no filename token leaves `filename` empty, and the append guard
`if filename and content` drops the block, so extraction returns no artifact
at all — no placeholder name is ever generated. -/
theorem c6_counterexample :
    extract supplyNum "```python\nhello\n```" = some [] := rfl

theorem ticks3_eq : "```".data = chTick :: chTick :: chTick :: [] := by decide

theorem ticks4_eq : "````".data = chTick :: chTick :: chTick :: chTick :: [] := by
  decide

theorem nlticks_eq : "\n```".data = chNL :: chTick :: chTick :: chTick :: [] := by
  decide

theorem dropWhile_cons_of_neg {p : Char → Bool} (c : Char) (t : Str)
    (h : p c = false) : (c :: t).dropWhile p = c :: t := by
  simp [List.dropWhile, h]

theorem pyLstrip_cons_of_neg (c : Char) (t : Str) (h : isPySpace c = false) :
    pyLstrip (c :: t) = c :: t :=
  dropWhile_cons_of_neg c t h

theorem pyRstrip_of_rev_cons (l : Str) (c : Char) (R : Str)
    (hrev : l.reverse = c :: R) (hc : isPySpace c = false) :
    pyRstrip l = l := by
  unfold pyRstrip
  rw [hrev, dropWhile_cons_of_neg c R hc, ← hrev, List.reverse_reverse]

theorem mkFence3_reverse (lang body : Str) :
    (mkFence3 lang body).reverse =
      chTick :: (chTick :: chTick :: chNL :: body.reverse ++
        chNL :: lang.reverse ++ chTick :: chTick :: chTick :: []) := by
  simp [mkFence3, ticks3_eq, nlticks_eq, List.reverse_append]
  decide

theorem mkFence3_cons (lang body : Str) :
    mkFence3 lang body =
      chTick :: chTick :: chTick :: (lang ++ chNL :: (body ++ "\n```".data)) := by
  rw [mkFence3, ticks3_eq]
  rfl

theorem pyStrip_mkFence3 (lang body : Str) :
    pyStrip (mkFence3 lang body) = mkFence3 lang body := by
  unfold pyStrip
  have h1 : pyLstrip (mkFence3 lang body) = mkFence3 lang body := by
    rw [mkFence3_cons]
    exact pyLstrip_cons_of_neg chTick _ (by decide)
  rw [h1]
  exact pyRstrip_of_rev_cons _ chTick _ (mkFence3_reverse lang body) (by decide)

/-- Python's JSON parser rejects any value starting with a backtick. -/
theorem parseGo_val_tick (fuel : Nat) (t : Str) :
    parseGo (fuel + 1) .val (chTick :: t) = none := by
  simp [parseGo, parseNum, startsWith, List.isPrefixOf, chTick, chQuote,
    chLB, Char.ofNat]

theorem skipWs_tick (t : Str) : skipWs (chTick :: t) = chTick :: t :=
  dropWhile_cons_of_neg chTick t (by decide)

theorem jsonLoads_tick (t : Str) : jsonLoads (chTick :: t) = none := by
  unfold jsonLoads
  rw [skipWs_tick]
  have h8 : 3 * (chTick :: t).length + 8 =
      (3 * (chTick :: t).length + 7) + 1 := rfl
  rw [h8, parseGo_val_tick]

theorem sw_cons (c d : Char) (t ds : Str) :
    startsWith (c :: t) (d :: ds) = ((d == c) && startsWith t ds) := rfl

theorem sw_nil (s : Str) : startsWith s ([] : Str) = true := by
  cases s <;> rfl

theorem beq_false_of_ne {c d : Char} (h : ¬ c = d) : (c == d) = false := by
  exact beq_eq_false_iff_ne.mpr h

theorem fjTryAt_nontick (c : Char) (t : Str) (h : ¬ c = chTick) :
    fjTryAt (c :: t) = none := by
  unfold fjTryAt
  rw [ticks3_eq, sw_cons, beq_false_of_ne (fun hh => h hh.symm),
    Bool.false_and]
  rfl

theorem scanFJ_append_nontick :
    ∀ (l : Str), (∀ x ∈ l, ¬ x = chTick) → ∀ (fuel : Nat) (tail : Str),
    scanFJ fuel (l ++ tail) = scanFJ (fuel - l.length) tail := by
  intro l
  induction l with
  | nil => intro _ fuel tail; simp
  | cons c rest ih =>
    intro hl fuel tail
    cases fuel with
    | zero => simp [scanFJ]
    | succ fuel =>
      rw [List.cons_append]
      simp only [scanFJ]
      rw [fjTryAt_nontick c _ (hl c (by simp))]
      rw [ih (fun x hx => hl x (by simp [hx])) fuel tail]
      have harith : fuel - rest.length = fuel + 1 - (c :: rest).length := by
        simp
      rw [harith]

theorem scanFJ_tail5 :
    ∀ fuel : Nat,
    scanFJ fuel (chNL :: chTick :: chTick :: chTick :: []) = [] ∧
    scanFJ fuel (chTick :: chTick :: chTick :: []) = [] ∧
    scanFJ fuel (chTick :: chTick :: []) = [] ∧
    scanFJ fuel (chTick :: []) = [] ∧
    scanFJ fuel ([] : Str) = [] := by
  intro fuel
  induction fuel with
  | zero => exact ⟨rfl, rfl, rfl, rfl, rfl⟩
  | succ fuel ih =>
    refine ⟨?_, ?_, ?_, ?_, rfl⟩
    · simp only [scanFJ]
      rw [(by decide :
        fjTryAt (chNL :: chTick :: chTick :: chTick :: []) = none)]
      exact ih.2.1
    · simp only [scanFJ]
      rw [(by decide : fjTryAt (chTick :: chTick :: chTick :: []) = none)]
      exact ih.2.2.1
    · simp only [scanFJ]
      rw [(by decide : fjTryAt (chTick :: chTick :: []) = none)]
      exact ih.2.2.2.1
    · simp only [scanFJ]
      rw [(by decide : fjTryAt (chTick :: []) = none)]
      exact ih.2.2.2.2

theorem fjTryAt_fence0 (a : Char) (lang' body : Str)
    (hjson : a :: lang' ≠ "json".data) (hNL : chNL ∉ a :: lang') :
    fjTryAt (chTick :: chTick :: chTick ::
      ((a :: lang') ++ chNL :: (body ++ "\n```".data))) = none := by
  unfold fjTryAt
  rw [if_pos (by rw [ticks3_eq]; simp [startsWith, List.isPrefixOf])]
  have hdrop : (chTick :: chTick :: chTick ::
      ((a :: lang') ++ chNL :: (body ++ "\n```".data))).drop 3 =
      (a :: lang') ++ chNL :: (body ++ "\n```".data) := rfl
  rw [hdrop]
  have hc2 : ¬ startsWith ((a :: lang') ++ chNL :: (body ++ "\n```".data))
      [chNL] = true := by
    simp [startsWith, List.isPrefixOf]
    intro habs
    exact hNL (by rw [habs]; exact List.mem_cons_self _ _)
  have hc1 : ¬ startsWith ((a :: lang') ++ chNL :: (body ++ "\n```".data))
      "json\n".data = true := by
    have hj : "json\n".data =
        'j' :: 's' :: 'o' :: 'n' :: chNL :: [] := by decide
    rw [hj]
    rcases lang' with _ | ⟨b, _ | ⟨c, _ | ⟨d, _ | ⟨e, rest2⟩⟩⟩⟩
    · simp [startsWith, List.isPrefixOf]
      intro _ habs
      exact absurd habs.symm (by decide)
    · simp [startsWith, List.isPrefixOf]
      intro _ _ habs
      exact absurd habs.symm (by decide)
    · simp [startsWith, List.isPrefixOf]
      intro _ _ _ habs
      exact absurd habs.symm (by decide)
    · simp [startsWith, List.isPrefixOf]
      intro h1 h2 h3 h4
      exact absurd (by rw [← h1, ← h2, ← h3, ← h4] :
        a :: b :: c :: d :: [] = "json".data) hjson
    · simp [startsWith, List.isPrefixOf]
      intro _ _ _ _ habs
      exact hNL (by rw [habs]; simp)
  rw [if_neg hc1, if_neg hc2]

theorem scanFJ_langTail (a : Char) (lang' body : Str)
    (htl : ∀ x ∈ a :: lang', ¬ x = chTick) (htb : ∀ x ∈ body, ¬ x = chTick) :
    ∀ fuel : Nat,
    scanFJ fuel ((a :: lang') ++ chNL :: (body ++ "\n```".data)) = [] := by
  intro fuel
  have hshape : (a :: lang') ++ chNL :: (body ++ "\n```".data) =
      ((a :: lang') ++ chNL :: body) ++ "\n```".data := by simp
  rw [hshape]
  rw [scanFJ_append_nontick ((a :: lang') ++ chNL :: body)
    (by
      intro x hx
      rcases List.mem_append.mp hx with h | h
      · exact htl x h
      · rcases List.mem_cons.mp h with h | h
        · rw [h]; decide
        · exact htb x h)
    fuel ("\n```".data)]
  rw [nlticks_eq]
  exact (scanFJ_tail5 _).1

theorem fjTryAt_tick1 (a : Char) (t : Str) (ha : ¬ a = chTick) :
    fjTryAt (chTick :: a :: t) = none := by
  have hsw : startsWith (chTick :: a :: t) "```".data = false := by
    rw [ticks3_eq, sw_cons, sw_cons, beq_false_of_ne (fun hh => ha hh.symm)]
    simp
  unfold fjTryAt
  rw [hsw]
  rfl

theorem fjTryAt_tick2 (a : Char) (t : Str) (ha : ¬ a = chTick) :
    fjTryAt (chTick :: chTick :: a :: t) = none := by
  have hsw : startsWith (chTick :: chTick :: a :: t) "```".data = false := by
    rw [ticks3_eq, sw_cons, sw_cons, sw_cons,
      beq_false_of_ne (fun hh => ha hh.symm)]
    simp
  unfold fjTryAt
  rw [hsw]
  rfl

theorem scanFJ_mkFence3 (a : Char) (lang' body : Str)
    (hjson : a :: lang' ≠ "json".data) (hNL : chNL ∉ a :: lang')
    (htl : ∀ x ∈ a :: lang', ¬ x = chTick)
    (htb : ∀ x ∈ body, ¬ x = chTick) :
    ∀ fuel : Nat, scanFJ fuel (mkFence3 (a :: lang') body) = [] := by
  have ha : ¬ a = chTick := htl a (by simp)
  have step1 : ∀ fuel : Nat,
      scanFJ fuel (chTick :: ((a :: lang') ++ chNL :: (body ++ "\n```".data))) = [] := by
    intro fuel
    cases fuel with
    | zero => rfl
    | succ fuel =>
      simp only [scanFJ]
      rw [List.cons_append, fjTryAt_tick1 a _ ha, ← List.cons_append]
      exact scanFJ_langTail a lang' body htl htb fuel
  have step2 : ∀ fuel : Nat,
      scanFJ fuel (chTick :: chTick ::
        ((a :: lang') ++ chNL :: (body ++ "\n```".data))) = [] := by
    intro fuel
    cases fuel with
    | zero => rfl
    | succ fuel =>
      simp only [scanFJ]
      rw [List.cons_append, fjTryAt_tick2 a _ ha, ← List.cons_append]
      exact step1 fuel
  intro fuel
  cases fuel with
  | zero => rfl
  | succ fuel =>
    rw [mkFence3_cons]
    simp only [scanFJ]
    rw [fjTryAt_fence0 a lang' body hjson hNL]
    exact step2 fuel

theorem hasSub_cons_parts {pat : Str} {c : Char} {t : Str}
    (h : hasSub pat (c :: t) = false) :
    startsWith (c :: t) pat = false ∧ hasSub pat t = false := by
  unfold hasSub findSubIdx at h
  by_cases hp : pat.isPrefixOf (c :: t) = true
  · rw [if_pos hp] at h
    simp at h
  · rw [if_neg hp] at h
    rw [Bool.not_eq_true] at hp
    refine ⟨hp, ?_⟩
    unfold hasSub
    simpa using h

theorem scanUD_of_nosub :
    ∀ (fuel : Nat) (s : Str), hasSub "--- a/".data s = false →
    scanUD fuel s = [] := by
  intro fuel
  induction fuel with
  | zero => intro s _; rfl
  | succ fuel ih =>
    intro s h
    cases s with
    | nil => rfl
    | cons c t =>
      obtain ⟨h1, h2⟩ := hasSub_cons_parts h
      simp only [scanUD]
      rw [show udTryAt (c :: t) = none from by unfold udTryAt; rw [h1]; rfl]
      exact ih t h2

theorem scanGD_of_nosub :
    ∀ (fuel : Nat) (s : Str), hasSub "diff --git a/".data s = false →
    scanGD fuel s = [] := by
  intro fuel
  induction fuel with
  | zero => intro s _; rfl
  | succ fuel ih =>
    intro s h
    cases s with
    | nil => rfl
    | cons c t =>
      obtain ⟨h1, h2⟩ := hasSub_cons_parts h
      simp only [scanGD]
      rw [show gdTryAt (c :: t) = none from by unfold gdTryAt; rw [h1]; rfl]
      exact ih t h2

theorem scanF4_of_nosub :
    ∀ (fuel : Nat) (i : Nat) (s : Str), hasSub "````".data s = false →
    scanF4 fuel i s = [] := by
  intro fuel
  induction fuel with
  | zero => intro i s _; rfl
  | succ fuel ih =>
    intro i s h
    cases s with
    | nil => rfl
    | cons c t =>
      obtain ⟨h1, h2⟩ := hasSub_cons_parts h
      simp only [scanF4]
      rw [show f4TryAt (c :: t) = none from by unfold f4TryAt; rw [h1]; rfl]
      exact ih (i + 1) t h2

theorem hasSub_ticks_mkFence3 (lang body : Str) :
    hasSub "```".data (mkFence3 lang body) = true := by
  rw [mkFence3_cons]
  unfold hasSub findSubIdx
  rw [if_pos (by rw [ticks3_eq]; simp [List.isPrefixOf])]
  rfl

theorem takeWhile_append_stop {p : Char → Bool} :
    ∀ (l : Str) (c : Char) (rest : Str), (∀ x ∈ l, p x = true) →
    p c = false → (l ++ c :: rest).takeWhile p = l := by
  intro l
  induction l with
  | nil => intro c rest _ hc; simp [List.takeWhile, hc]
  | cons a l' ih =>
    intro c rest hl hc
    rw [List.cons_append]
    simp [List.takeWhile, hl a (by simp)]
    exact ih c rest (fun x hx => hl x (by simp [hx])) hc

theorem isPrefixOf_cons_eq (d c : Char) (ds t : Str) :
    (d :: ds).isPrefixOf (c :: t) = ((d == c) && ds.isPrefixOf t) := rfl

theorem findSubIdx_nlticks :
    ∀ (body : Str), chTick ∉ body →
    findSubIdx "\n```".data (body ++ "\n```".data) = some body.length := by
  intro body
  induction body with
  | nil =>
    intro _
    rw [List.nil_append]
    decide
  | cons b rest ih =>
    intro htb
    have hrest : chTick ∉ rest := fun h => htb (by simp [h])
    have hpre : ("\n```".data.isPrefixOf (b :: (rest ++ "\n```".data))) = false := by
      rw [nlticks_eq]
      by_cases hbn : b = chNL
      · subst hbn
        cases rest with
        | nil =>
          decide
        | cons x xs =>
          have hx : ¬ chTick = x := fun h => hrest (by simp [← h])
          rw [List.cons_append, isPrefixOf_cons_eq, isPrefixOf_cons_eq,
            beq_false_of_ne hx]
          simp
      · rw [isPrefixOf_cons_eq, beq_false_of_ne (fun h => hbn h.symm)]
        simp
    rw [List.cons_append]
    unfold findSubIdx
    rw [if_neg (by rw [hpre]; simp), ih hrest]
    rfl

theorem f3TryAt_mkFence3 (lang body : Str) (hNL : chNL ∉ lang)
    (htb : chTick ∉ body) :
    f3TryAt (mkFence3 lang body) =
      some (lang, body, 3 + lang.length + 1 + body.length + 4) := by
  have hdrop : (mkFence3 lang body).drop 3 =
      lang ++ chNL :: (body ++ "\n```".data) := by
    rw [mkFence3_cons]
    rfl
  have htake : (lang ++ chNL :: (body ++ "\n```".data)).takeWhile
      (· ≠ chNL) = lang := by
    apply takeWhile_append_stop
    · intro x hx
      have hxne : ¬ x = chNL := fun h => hNL (h ▸ hx)
      exact decide_eq_true hxne
    · simp
  have hsw : startsWith (mkFence3 lang body) "```".data = true := by
    rw [mkFence3_cons, ticks3_eq]
    simp [startsWith, List.isPrefixOf]
  unfold f3TryAt
  rw [if_pos hsw, hdrop, htake, List.drop_left]
  exact (by rw [findSubIdx_nlticks body htb, Option.map_some', List.take_left] :
    (findSubIdx "\n```".data (body ++ "\n```".data)).map
      (fun j => (lang, (body ++ "\n```".data).take j,
        3 + lang.length + 1 + j + 4)) =
    some (lang, body, 3 + lang.length + 1 + body.length + 4))

theorem scanF3_nil (fuel i : Nat) : scanF3 fuel i [] = [] := by
  cases fuel <;> rfl

theorem mkFence3_length (lang body : Str) :
    (mkFence3 lang body).length = 3 + lang.length + 1 + body.length + 4 := by
  simp [mkFence3]
  omega

theorem scanF3_cons (fuel i : Nat) (c : Char) (t : Str) :
    scanF3 (fuel + 1) i (c :: t) =
      match f3TryAt (c :: t) with
      | some (g1, g2, len) =>
        (i, g1, g2) :: scanF3 fuel (i + len) ((c :: t).drop len)
      | none => scanF3 fuel (i + 1) t := rfl

theorem scanF3_mkFence3 (fuel : Nat) (lang body : Str) (hNL : chNL ∉ lang)
    (htb : chTick ∉ body) :
    scanF3 (fuel + 1) 0 (mkFence3 lang body) = [(0, lang, body)] := by
  rw [mkFence3_cons, scanF3_cons, ← mkFence3_cons,
    f3TryAt_mkFence3 lang body hNL htb]
  show (0, lang, body) ::
      scanF3 fuel (0 + (3 + lang.length + 1 + body.length + 4))
        ((mkFence3 lang body).drop (3 + lang.length + 1 + body.length + 4)) =
    [(0, lang, body)]
  rw [← mkFence3_length, List.drop_length, scanF3_nil]

theorem fenceFilename_zero (r : Str) : fenceFilename r 0 = [] := rfl

theorem processFence_zero (r g1 g2 : Str)
    (hdot : '.' ∉ pyStrip g1) (hslash : '/' ∉ pyStrip g1)
    (hdiff : pyStrip g1 ≠ "diff".data) :
    processFence r 0 g1 g2 =
      ([], pyStrip g1, escapeBackticksRP (pyStrip g2), false) := by
  have hc : ¬ (('.' ∈ pyStrip g1) ∨ ('/' ∈ pyStrip g1)) := by
    push_neg
    exact ⟨hdot, hslash⟩
  unfold processFence
  rw [if_neg hc, if_neg hdiff, fenceFilename_zero]

theorem f3Artifacts_mkFence3 (lang body : Str) (hNL : chNL ∉ lang)
    (htb : chTick ∉ body) (hdot : '.' ∉ pyStrip lang)
    (hslash : '/' ∉ pyStrip lang) (hdiff : pyStrip lang ≠ "diff".data) :
    f3Artifacts (mkFence3 lang body) = [] := by
  unfold f3Artifacts
  rw [scanF3_mkFence3 ((mkFence3 lang body).length) lang body hNL htb]
  rw [List.filterMap_eq_nil_iff]
  intro m hm
  rw [List.mem_singleton] at hm
  subst hm
  dsimp only
  rw [processFence_zero (mkFence3 lang body) lang body hdot hslash hdiff]
  dsimp only
  rw [if_neg (by simp)]

theorem f4Artifacts_of_nosub (r : Str) (h : hasSub "````".data r = false) :
    f4Artifacts r = [] := by
  unfold f4Artifacts
  rw [scanF4_of_nosub _ _ _ h]
  rfl

theorem udArtifacts_of_nosub (r : Str) (h : hasSub "--- a/".data r = false) :
    udArtifacts r = [] := by
  unfold udArtifacts
  rw [scanUD_of_nosub _ _ h]
  rfl

theorem gdArtifacts_of_nosub (r : Str)
    (h : hasSub "diff --git a/".data r = false) :
    gdArtifacts r = [] := by
  unfold gdArtifacts
  rw [scanGD_of_nosub _ _ h]
  rfl

/-- C6 (amended): a response that is exactly one triple-backtick fenced
block whose label has no dot, no slash and is not `diff` yields NO artifact
at all.  The triple-fence strategy computes an empty filename (there is no
line before the fence), the `if filename and content` guard at
`response_processor.py` line 182 drops the block, and no other strategy
matches such a response — so no placeholder filename is ever generated and
the block is silently lost. -/
theorem c6_unlabeled_fence_dropped (supply : Nat → String) (a : Char)
    (lang' body : Str)
    (hjson : a :: lang' ≠ "json".data)
    (hNL : chNL ∉ a :: lang')
    (htl : chTick ∉ a :: lang')
    (htb : chTick ∉ body)
    (hdot : '.' ∉ pyStrip (a :: lang'))
    (hslash : '/' ∉ pyStrip (a :: lang'))
    (hdiff : pyStrip (a :: lang') ≠ "diff".data)
    (hud : hasSub "--- a/".data (mkFence3 (a :: lang') body) = false)
    (hgd : hasSub "diff --git a/".data (mkFence3 (a :: lang') body) = false)
    (hf4 : hasSub "````".data (mkFence3 (a :: lang') body) = false) :
    extract supply (String.mk (mkFence3 (a :: lang') body)) = some [] := by
  have htl' : ∀ x ∈ a :: lang', ¬ x = chTick := fun x hx h => htl (h ▸ hx)
  have htb' : ∀ x ∈ body, ¬ x = chTick := fun x hx h => htb (h ▸ hx)
  have hne : mkFence3 (a :: lang') body ≠ [] := by
    rw [mkFence3_cons]
    simp
  have hjl : jsonLoads (mkFence3 (a :: lang') body) = none := by
    rw [mkFence3_cons]
    exact jsonLoads_tick _
  have htail : extractTail supply (mkFence3 (a :: lang') body) 0 = some [] := by
    unfold extractTail
    rw [scanFJ_mkFence3 a lang' body hjson hNL htl' htb']
    show (if ¬ hasSub "```".data (mkFence3 (a :: lang') body) = true ∧
        ¬ startsWith (mkFence3 (a :: lang') body) "diff".data = true ∧
        ¬ startsWith (mkFence3 (a :: lang') body) "---".data = true then
        _ else _) = some []
    rw [if_neg (fun hc => hc.1 (hasSub_ticks_mkFence3 (a :: lang') body))]
    rw [f4Artifacts_of_nosub _ hf4,
      f3Artifacts_mkFence3 (a :: lang') body hNL htb hdot hslash hdiff,
      udArtifacts_of_nosub _ hud, gdArtifacts_of_nosub _ hgd]
    rfl
  unfold extract
  dsimp only
  rw [pyStrip_mkFence3, if_neg hne, hjl]
  show (if ([] : List Artifact) ≠ [] then some [] else
    extractTail supply (mkFence3 (a :: lang') body) 0) = some []
  rw [if_neg (by simp), htail]

/-- Witness for the amended C6 theorem: the concrete response
consisting of one fenced block labelled `python` with body `hello`. -/
theorem c6_witness :
    extract supplyNum
      (String.mk (mkFence3 ('p' :: "ython".data) "hello".data)) = some [] :=
  c6_unlabeled_fence_dropped supplyNum 'p' "ython".data "hello".data
    (by decide) (by decide) (by decide) (by decide) (by decide) (by decide)
    (by decide) (by decide) (by decide) (by decide)

end PoorAI
